import Mathlib

/-!
Verification development for the nano-banana server actions
(`src/app/api/nano-banana/action.tsx`).

The file shallowly embeds the pure computational content of the module:
the prompt sentence normalizer, the random folder-id generator, the two
result normalizers (`buildImageListFromURI` / `buildImageListFromBase64`),
and the post-response / error-classification steps of `generateImage`,
`editImage` and `upscaleImage`.  External collaborators (cloud storage,
the remote endpoint, the clock) are modelled as explicit environments;
promise rejection is modelled with `Except`; JavaScript property access
on `undefined` is modelled as a thrown `TypeError`.
-/

/-- A single-quote character (U+0027), used to build strings that contain
quotes without putting a quote character in a literal. -/
def quoteCh : String := String.mk [Char.ofNat 39]

/-- JavaScript `Array.prototype.findIndex`: index of the first element
satisfying `p`, and `-1` when there is none. -/
def jsFindIndex (p : α → Bool) : List α → Int
  | [] => -1
  | a :: t =>
    if p a then 0
    else
      let r := jsFindIndex p t
      if r = -1 then -1 else r + 1

/-- JavaScript single-occurrence `String.prototype.replace(pat, rep)` on
character lists: replaces the leftmost occurrence of `pat` (an empty
pattern matches at position 0, as in JS). -/
def jsReplaceFirstAux (pat rep : List Char) : List Char → List Char
  | [] => if pat.isPrefixOf ([] : List Char) then rep else []
  | c :: t =>
    if pat.isPrefixOf (c :: t) then rep ++ (c :: t).drop pat.length
    else c :: jsReplaceFirstAux pat rep t

/-- JavaScript `String.prototype.replace(pat, rep)` with a string pattern:
first occurrence only. -/
def jsReplaceFirst (s pat rep : String) : String :=
  String.mk (jsReplaceFirstAux pat.data rep.data s.data)

/-- JavaScript `String.prototype.replaceAll` for a single-character
pattern (all the `replaceAll` calls in the source use one-character
patterns). -/
def jsReplaceAllChar (pat : Char) (rep : List Char) : List Char → List Char
  | [] => []
  | c :: t =>
    if c = pat then rep ++ jsReplaceAllChar pat rep t
    else c :: jsReplaceAllChar pat rep t

/-- Auxiliary for `jsSplitStr`, structurally recursive on a fuel that is
at least the list length: split at each non-overlapping occurrence of
`sep`, scanning left to right. -/
def jsSplitStrAux (sep : List Char) : Nat → List Char → List (List Char)
  | _, [] => [[]]
  | 0, l => [l]
  | fuel + 1, c :: t =>
    if sep.isPrefixOf (c :: t) ∧ sep ≠ [] then
      [] :: jsSplitStrAux sep fuel ((c :: t).drop sep.length)
    else
      match jsSplitStrAux sep fuel t with
      | [] => [[c]]
      | w :: ws => (c :: w) :: ws

/-- JavaScript `String.prototype.split(sep)` for a non-empty string
separator: pieces between non-overlapping occurrences, empty pieces
kept. -/
def jsSplitStr (s sep : String) : List String :=
  (jsSplitStrAux sep.data s.data.length s.data).map String.mk

/-- Auxiliary for `jsIncludes`: does `sub` occur as a prefix of some
suffix of the second list? -/
def jsIncludesAux (sub : List Char) : List Char → Bool
  | [] => sub.isPrefixOf ([] : List Char)
  | c :: t => sub.isPrefixOf (c :: t) || jsIncludesAux sub t

/-- JavaScript `String.prototype.includes`: contiguous substring test. -/
def jsIncludes (s sub : String) : Bool :=
  jsIncludesAux sub.data s.data

/-- JavaScript `String.prototype.toLowerCase`, embedded through
`Char.toLower`.  On ASCII text this is character-for-character the JS
mapping; the full Unicode mappings JS applies outside ASCII (including
one-to-many expansions) are outside this embedding's faithful fragment,
so theorems about case behavior carry an ASCII hypothesis. -/
def lowerList (l : List Char) : List Char := l.map Char.toLower

/-- JavaScript `String.prototype.toUpperCase`, embedded through
`Char.toUpper`: character-for-character the JS mapping on ASCII text,
with the same faithful-fragment caveat as `lowerList`. -/
def upperList (l : List Char) : List Char := l.map Char.toUpper

/-- String-level lowercase. -/
def lowerStr (s : String) : String := String.mk (lowerList s.data)

/-- String-level uppercase. -/
def upperStr (s : String) : String := String.mk (upperList s.data)

/-- The set of whitespace characters removed by JavaScript
`String.prototype.trim`, by code point: TAB, LF, VT, FF, CR, SP, NBSP,
OGHAM SPACE MARK, the U+2000..U+200A spaces, LINE SEPARATOR, PARAGRAPH
SEPARATOR, NARROW NO-BREAK SPACE, MEDIUM MATHEMATICAL SPACE,
IDEOGRAPHIC SPACE and BOM. -/
def jsWS (c : Char) : Bool :=
  c.toNat == 32 || c.toNat == 9 || c.toNat == 10 || c.toNat == 11 ||
  c.toNat == 12 || c.toNat == 13 || c.toNat == 160 || c.toNat == 0x1680 ||
  c.toNat == 0x2000 || c.toNat == 0x2001 || c.toNat == 0x2002 ||
  c.toNat == 0x2003 || c.toNat == 0x2004 || c.toNat == 0x2005 ||
  c.toNat == 0x2006 || c.toNat == 0x2007 || c.toNat == 0x2008 ||
  c.toNat == 0x2009 || c.toNat == 0x200A || c.toNat == 0x2028 ||
  c.toNat == 0x2029 || c.toNat == 0x202F || c.toNat == 0x205F ||
  c.toNat == 0x3000 || c.toNat == 0xFEFF

/-- Source `cleanResult` (action.tsx line 32): deletes every newline, slash and
asterisk (three `replaceAll` calls with empty replacement). -/
def cleanResult (inputString : String) : String :=
  String.mk (jsReplaceAllChar (Char.ofNat 42) []
    (jsReplaceAllChar (Char.ofNat 47) []
      (jsReplaceAllChar (Char.ofNat 10) [] inputString.data)))

/-- Source `generateUniqueFolderId` (action.tsx line 36), with the outcomes of
the thirteen `Math.floor(Math.random() * _)` draws made explicit:
`first` is the first draw (`Math.floor(Math.random() * 9)`, in `0..8`)
and `draws` are the twelve loop draws (each in `0..9`).
The source computes `(first + 1)` and then folds `n * 10 + d`. -/
def generateUniqueFolderId (first : Nat) (draws : List Nat) : Nat :=
  draws.foldl (fun n d => n * 10 + d) (first + 1)

/-- Source `sentence.toLowerCase().split(' ')` (action.tsx line 44): JS `split`
on a single space keeps empty pieces. -/
def splitSp : List Char → List (List Char)
  | [] => [[]]
  | c :: rest =>
    if c = ' ' then [] :: splitSp rest
    else
      match splitSp rest with
      | [] => [[c]]
      | w :: ws => (c :: w) :: ws

/-- Source `word.charAt(0).toUpperCase() + word.slice(1)` (action.tsx
line 52), embedded through `Char.toUpper`: exact on ASCII first
letters; JS one-to-many uppercase expansions of non-ASCII letters are
outside this embedding's faithful fragment (see `lowerList`). -/
def capWord : List Char → List Char
  | [] => []
  | c :: t => Char.toUpper c :: t

/-- Source `word.endsWith('.') || word.endsWith('!') || word.endsWith('?')`
(action.tsx line 55). -/
def endsPunct (w : List Char) : Bool :=
  match w.getLast? with
  | some c => c == Char.ofNat 46 || c == '!' || c == '?'
  | none => false

/-- The capitalization loop of `normalizeSentence` (action.tsx lines
48-59): the `newSentence` flag is consumed by capitalizing the current
word and re-armed when the (possibly capitalized) word ends in
sentence-ending punctuation. -/
def capLoop : Bool → List (List Char) → List (List Char)
  | _, [] => []
  | ns, w :: ws =>
    let w' := if ns then capWord w else w
    w' :: capLoop (endsPunct w') ws

/-- Source `normalizedSentence += word + ' '` over the loop: each word followed
by one space. -/
def joinSp (ws : List (List Char)) : List Char :=
  ws.foldr (fun w acc => w ++ ' ' :: acc) []

/-- Source `replace(/  +/g, ' ')` (action.tsx line 62): every maximal run of
two or more spaces becomes a single space. -/
def collapseSp : List Char → List Char
  | [] => []
  | [c] => [c]
  | c :: d :: rest =>
    if c = ' ' ∧ d = ' ' then collapseSp (d :: rest)
    else c :: collapseSp (d :: rest)

/-- Source `String.prototype.trim` (action.tsx line 65): strip whitespace from
both ends. -/
def trimList (l : List Char) : List Char :=
  (((l.dropWhile jsWS).reverse).dropWhile jsWS).reverse

/-- Source `replace(/, ,/g, ',')` (action.tsx line 68): global left-to-right
non-overlapping replacement of `", ,"` by `","`; the scan resumes after
the replaced text. -/
def rcommas : List Char → List Char
  | [] => []
  | [c] => [c]
  | [c, d] => [c, d]
  | c :: d :: e :: rest =>
    if c = ',' ∧ d = ' ' ∧ e = ',' then ',' :: rcommas rest
    else c :: rcommas (d :: e :: rest)

/-- Joining words with a single separating space: the shape of the
normalizer's output after space collapsing and trimming. -/
def interSp : List (List Char) → List Char
  | [] => []
  | [w] => w
  | w :: v :: t => w ++ ' ' :: interSp (v :: t)

/-- No comma-ending word is immediately followed by a comma-starting
word (so the join contains no `", ,"`). -/
def noCommaPairB : List (List Char) → Bool
  | [] => true
  | [_] => true
  | a :: b :: t =>
    (!(a.getLast? == some ',' && b.head? == some ',')) && noCommaPairB (b :: t)

/-- Source `normalizeSentence` (action.tsx lines 42-71). -/
def normalizeSentence (sentence : String) : String :=
  String.mk (rcommas (trimList (collapseSp (joinSp
    (capLoop true (splitSp (lowerList sentence.data)))))))

/-! ## Data model and cloud environment -/

/-- An element of a thrown error's nested `errors` list; the catch
blocks read its `message` property. -/
structure JsNestedError where
  message : String
  deriving Repr, DecidableEq

/-- A thrown JavaScript error: `name` and `message` feed
`Error.prototype.toString`; `errors` models the optional nested
error-list property that the catch blocks probe (`myError.errors`). -/
structure JsError where
  name : String
  message : String
  errors : Option (List JsNestedError) := none
  deriving Repr, DecidableEq

/-- Source `new Error(msg)`. -/
def plainError (msg : String) : JsError :=
  { name := "Error", message := msg }

/-- The `TypeError` raised by reading a property of `undefined`. -/
def jsUndefinedAccess (prop : String) : JsError :=
  { name := "TypeError",
    message := "Cannot read properties of undefined (reading " ++ quoteCh
      ++ prop ++ quoteCh ++ ")" }

/-- The `TypeError` raised by `'raiFilteredReason' in undefined`. -/
def jsInOperatorError : JsError :=
  { name := "TypeError",
    message := "Cannot use " ++ quoteCh ++ "in" ++ quoteCh
      ++ " operator to search for " ++ quoteCh ++ "raiFilteredReason"
      ++ quoteCh ++ " in undefined" }

/-- Source `Error.prototype.toString`: `name` when the message is empty, else
`name ++ ": " ++ message`. -/
def jsErrorToString (e : JsError) : String :=
  if e.message = "" then e.name else e.name ++ ": " ++ e.message

/-- Source `ImagenModelResultI`: a prediction returned by the remote model.  The
source probes optional properties (`'raiFilteredReason' in image`,
`hasOwnProperty('bytesBase64Encoded')`), so the fields that are probed
are `Option`s; `mimeType` is a plain string, as in the interface. -/
structure ModelResult where
  raiFilteredReason : Option String := none
  bytesBase64Encoded : Option String := none
  gcsUri : Option String := none
  mimeType : String := ""
  prompt : Option String := none
  deriving Repr, DecidableEq

/-- The full success record built by the normalizers (`ImageI`). -/
structure ImageRecord where
  src : String
  gcsUri : Option String
  format : String
  prompt : String
  altText : String
  key : String
  width : Nat
  height : Nat
  ratio : String
  date : String
  author : String
  modelVersion : String
  mode : String
  deriving Repr, DecidableEq

/-- One element of the normalizers' output: a success record, a warning
record (safety filtered) or an error record. -/
inductive DisplayOut where
  | warning (w : String)
  | error (e : String)
  | image (img : ImageRecord)
  deriving Repr, DecidableEq

/-- Source `true` exactly on error records. -/
def DisplayOut.isError : DisplayOut → Bool
  | .error _ => true
  | _ => false

/-- Result of `decomposeUri`: the promise can reject, resolve to an
object without a usable `fileName`, or resolve with a file name. -/
inductive DecomposeOutcome where
  | rejected (e : JsError)
  | resolvedNone
  | resolved (fileName : String)
  deriving Repr, DecidableEq

/-- Result of `getSignedURL`: a signed URL string or an `{error}` value
(the collaborator returns errors rather than throwing, per its
contract). -/
inductive SignedURLOutcome where
  | url (s : String)
  | failure (e : String)
  deriving Repr, DecidableEq

/-- Result of `uploadBase64Image`: `{success, fileUrl?, error?}`. -/
structure UploadResult where
  success : Bool
  fileUrl : Option String := none
  error : Option String := none
  deriving Repr, DecidableEq

/-- The cloud-storage collaborators and the clock, as consumed by the
result normalizers. -/
structure CloudEnv where
  decomposeUri : String → DecomposeOutcome
  getSignedURL : String → SignedURLOutcome
  uploadBase64Image : (base64 : String) → (bucket : String) → (objectName : String) → UploadResult
  today : String

/-- The scalar arguments shared by both normalizers. -/
structure BuildParams where
  aspectRatio : String
  width : Nat
  height : Nat
  usedPrompt : String
  userID : String
  modelVersion : String
  mode : String
  deriving Repr, DecidableEq

/-- The per-item error message used by both normalizers. -/
def secAccessMsg : String := "Error while getting secured access to content."

/-- Source `image.prompt && image.prompt != '' ? image.prompt : usedPrompt`. -/
def promptOr (p : Option String) (usedPrompt : String) : String :=
  match p with
  | some s => if s ≠ "" then s else usedPrompt
  | none => usedPrompt

/-- The identifier-derivation chain shared by both normalizers
(action.tsx lines 135-141 and 223-229): delete all slashes, then strip
the first occurrence of the user id, the two folder names, the sample
prefix and the lowercased extension. -/
def idChain (fileName userID format : String) : String :=
  jsReplaceFirst
    (jsReplaceFirst
      (jsReplaceFirst
        (jsReplaceFirst
          (jsReplaceFirst
            (String.mk (jsReplaceAllChar (Char.ofNat 47) [] fileName.data))
            userID "")
          "generated-images" "")
        "edited-images" "")
      "sample_" "")
    ("." ++ lowerStr format) ""

/-- Source `image.mimeType.replace('image/', '').toUpperCase()`. -/
def mimeFormat (mimeType : String) : String :=
  upperStr (jsReplaceFirst mimeType "image/" "")

/-- Sequencing of the per-item promises: `Promise.all` settles with the
list of results in input order, or rejects when an item rejects. -/
def collectAll (f : α → Except JsError β) : List α → Except JsError (List β)
  | [] => .ok []
  | a :: t => do
    let b ← f a
    let r ← collectAll f t
    pure (b :: r)

/-! ## `buildImageListFromURI` (action.tsx lines 106-183) -/

/-- The per-item transformation of `buildImageListFromURI`.  A failing
`decomposeUri` (rejection, or a resolve without `fileName`, which makes
`fileName.replaceAll` throw) happens before the `try` block and escapes
as a rejection; a `getSignedURL` `{error}` is thrown inside the `try`
and becomes the per-item error record. -/
def uriItem (env : CloudEnv) (p : BuildParams) (image : ModelResult) :
    Except JsError DisplayOut :=
  match image.raiFilteredReason with
  | some r => .ok (.warning r)
  | none => do
    let fileName ←
      match env.decomposeUri (image.gcsUri.getD "") with
      | .rejected e => Except.error e
      | .resolvedNone => Except.error (jsUndefinedAccess "replaceAll")
      | .resolved f => Except.ok f
    let format := mimeFormat image.mimeType
    let ID := idChain fileName p.userID format
    let formattedDate := env.today
    match env.getSignedURL (image.gcsUri.getD "") with
    | .failure _ => pure (.error secAccessMsg)
    | .url u =>
      pure (.image
        { src := u
          gcsUri := image.gcsUri
          format := format
          prompt := promptOr image.prompt p.usedPrompt
          altText := "Generated image " ++ fileName
          key := ID
          width := p.width
          height := p.height
          ratio := p.aspectRatio
          date := formattedDate
          author := p.userID
          modelVersion := p.modelVersion
          mode := p.mode })

/-- Source `buildImageListFromURI`: fan-out over the batch, collected in input
order.  (The trailing `.filter(image => image !== null)` of the source
is the identity, since no branch produces `null`.) -/
def buildImageListFromURI (env : CloudEnv) (p : BuildParams)
    (imagesInGCS : List ModelResult) : Except JsError (List DisplayOut) :=
  collectAll (uriItem env p) imagesInGCS

/-! ## `buildImageListFromBase64` (action.tsx lines 185-277) -/

/-- Source `targetGcsURI.replace('gs://', '').split('/')[0]`. -/
def b64Bucket (targetGcsURI : String) : String :=
  (jsSplitStr (jsReplaceFirst targetGcsURI "gs://" "") "/").headD ""

/-- Source `targetGcsURI.split(bucketName + '/')[1] + '/' + uniqueFolderId`
(a missing piece stringifies as `"undefined"`, as JS concatenation
does). -/
def b64Folder (targetGcsURI : String) (uniqueFolderId : Nat) : String :=
  ((jsSplitStr targetGcsURI (b64Bucket targetGcsURI ++ "/")).getD 1 "undefined")
    ++ "/" ++ toString uniqueFolderId

/-- The item's synthesized file name (action.tsx lines 218-219): the
index is `findIndex` over the batch comparing `bytesBase64Encoded`, not
the item's own position. -/
def b64FileName (imagesBase64 : List ModelResult) (image : ModelResult) : String :=
  "sample_" ++ toString
    (jsFindIndex (fun obj => obj.bytesBase64Encoded == image.bytesBase64Encoded)
      imagesBase64)

/-- Source `folderName + '/' + fileName + '.' + format.toLocaleLowerCase()`. -/
def b64FullObjectName (folderName : String) (imagesBase64 : List ModelResult)
    (image : ModelResult) : String :=
  folderName ++ "/" ++ b64FileName imagesBase64 image ++ "."
    ++ lowerStr (mimeFormat image.mimeType)

/-- The per-item transformation of `buildImageListFromBase64`.  All
fallible steps are inside the `try`, so the item always yields a
record; a failed upload or signed-URL `{error}` becomes the per-item
error record. -/
def b64Item (env : CloudEnv) (p : BuildParams) (imagesBase64 : List ModelResult)
    (bucketName folderName : String) (image : ModelResult) : DisplayOut :=
  match image.raiFilteredReason with
  | some r => .warning r
  | none =>
    let format := mimeFormat image.mimeType
    let fileName := b64FileName imagesBase64 image
    let fullOjectName := b64FullObjectName folderName imagesBase64 image
    let ID := idChain fullOjectName p.userID format
    let formattedDate := env.today
    let upload := env.uploadBase64Image (image.bytesBase64Encoded.getD "")
      bucketName fullOjectName
    if upload.success = false then .error secAccessMsg
    else
      let imageGcsUri := upload.fileUrl.getD ""
      match env.getSignedURL imageGcsUri with
      | .failure _ => .error secAccessMsg
      | .url u =>
        .image
          { src := u
            gcsUri := some imageGcsUri
            format := format
            prompt := promptOr image.prompt p.usedPrompt
            altText := "Generated image " ++ fileName
            key := ID
            width := p.width
            height := p.height
            ratio := p.aspectRatio
            date := formattedDate
            author := p.userID
            modelVersion := p.modelVersion
            mode := p.mode }

/-- Source `buildImageListFromBase64`: the random folder id drawn once per call
is a parameter; the per-item transformations are collected in input
order and never reject. -/
def buildImageListFromBase64 (env : CloudEnv) (uniqueFolderId : Nat)
    (targetGcsURI : String) (p : BuildParams)
    (imagesBase64 : List ModelResult) : List DisplayOut :=
  let bucketName := b64Bucket targetGcsURI
  let folderName := b64Folder targetGcsURI uniqueFolderId
  imagesBase64.map (b64Item env p imagesBase64 bucketName folderName)

/-! ## `generateImage`, step 4 and error classification
(action.tsx lines 362-430) -/

/-- Source `generationConfig.imageConfig` of the generate request. -/
structure ImageConfig where
  aspectRatio : String
  deriving Repr, DecidableEq

/-- Source `generationConfig` of the generate request; `seed` is set only when
the form supplies one (line 351). -/
structure GenerationConfig where
  imageConfig : ImageConfig
  seed : Option Int := none
  deriving Repr, DecidableEq

/-- One part of a chat-style content message. -/
structure ContentPart where
  text : String
  deriving Repr, DecidableEq

/-- One chat-style content message. -/
structure ContentMsg where
  role : String
  parts : List ContentPart
  deriving Repr, DecidableEq

/-- The shape the result handling probes at `opts.data.parameters`. -/
structure LegacyParams where
  aspectRatio : String
  deriving Repr, DecidableEq

/-- The shape the result handling probes at `opts.data.instances[0]`. -/
structure LegacyInstance where
  prompt : String
  deriving Repr, DecidableEq

/-- The request body built by `generateImage` step 3 (lines 333-353):
`contents` plus `generationConfig`.  The optional `parameters` and
`instances` fields record that the built object has no such
properties - the result handling nevertheless reads them. -/
structure GenReqData where
  contents : List ContentMsg
  generationConfig : GenerationConfig
  parameters : Option LegacyParams := none
  instances : Option (List LegacyInstance) := none
  deriving Repr, DecidableEq

/-- Step 3 of `generateImage`: the `reqData` object literal of lines
333-353 (with the conditional `seed` assignment of line 351). -/
def mkGenerateReqData (fullPrompt aspectRatio : String)
    (seedNumber : Option Int) : GenReqData :=
  { contents := [{ role := "user", parts := [{ text := fullPrompt }] }],
    generationConfig :=
      { imageConfig := { aspectRatio := aspectRatio }, seed := seedNumber } }

/-- One entry of the static `RatioToPixel` table.
Modelled from the spec: the table itself lives outside `src/`
("aspect-ratio to pixel dimensions" static lookup), so it is passed in
as data. -/
structure RatioPixel where
  ratio : String
  width : Nat
  height : Nat
  deriving Repr, DecidableEq

/-- Source `res.data.candidates[0]`: only its `content` presence is inspected. -/
structure Candidate where
  content : Option Unit
  deriving Repr, DecidableEq

/-- The generate response shape consumed by step 4. -/
structure GenResponse where
  candidates : List Candidate
  predictions : Option (List ModelResult)
  deriving Repr, DecidableEq

/-- Source `'safety settings for peopleface generation'` (line 414). -/
def safetyPhrase1 : String := "safety settings for peopleface generation"

/-- The usage-guidelines phrase of line 415 (it contains a quote). -/
def safetyPhrase2 : String :=
  "All images were filtered out because they violated Vertex AI"
    ++ quoteCh ++ "s usage guidelines"

/-- Source `'Person Generation'` (line 416). -/
def safetyPhrase3 : String := "Person Generation"

/-- Source `errorString.replace(/^Error: /i, '')` (line 419): anchored,
case-insensitive, so it strips a leading `"Error: "` if present. -/
def stripLeadingError (s : String) : String :=
  if lowerList (s.data.take 7) = "error: ".data then String.mk (s.data.drop 7)
  else s

/-- The catch block of `generateImage` (lines 409-429): safety phrases
surface verbatim (minus a leading `Error: `); otherwise the guarded
nested error-list message is used, with a generic fallback. -/
def generateCatchMsg (e : JsError) : String :=
  let errorString := jsErrorToString e
  if jsIncludes errorString safetyPhrase1 || jsIncludes errorString safetyPhrase2
      || jsIncludes errorString safetyPhrase3 then
    stripLeadingError errorString
  else
    let myErrorMsg :=
      match e.errors with
      | some (first :: _) =>
        if first.message ≠ "" then
          jsReplaceFirst first.message
            "Image generation failed with the following error: " ""
        else ""
      | _ => ""
    if myErrorMsg ≠ "" then myErrorMsg else "An unexpected error occurred."

/-- What `generateImage` returns from step 4: a normalized list or an
`{error}` value. -/
inductive GenReturn where
  | images (l : List DisplayOut)
  | errValue (e : String)
  deriving Repr, DecidableEq

/-- Source `true` exactly on `{error}` values. -/
def GenReturn.isErrValue : GenReturn → Bool
  | .errValue _ => true
  | _ => false

/-- The body of the `try` of step 4 (lines 363-408), in source order:
check `candidates[0].content`, read `opts.data.parameters.aspectRatio`
(line 367), read `res.data.predictions`, probe `bytesBase64Encoded` on
every prediction, read `opts.data.instances[0].prompt` (lines 391/402),
then branch to the matching normalizer. -/
def genAttempt (env : CloudEnv) (ratioToPixel : List RatioPixel)
    (uniqueFolderId : Nat) (generationGcsURI : String) (appUserID : String)
    (modelVersion : String) (reqData : GenReqData) (res : GenResponse) :
    Except JsError (List DisplayOut) := do
  let cand ←
    match res.candidates.head? with
    | none => Except.error (jsUndefinedAccess "content")
    | some c => Except.ok c
  let _ ←
    if cand.content = none then
      Except.error (plainError "There were an issue, no images were generated")
    else Except.ok ()
  let ps ←
    match reqData.parameters with
    | none => Except.error (jsUndefinedAccess "aspectRatio")
    | some ps => Except.ok ps
  let usedRatio := ratioToPixel.find? (fun item => item.ratio == ps.aspectRatio)
  let resultImages ←
    match res.predictions with
    | none => Except.error (jsUndefinedAccess "every")
    | some l => Except.ok l
  let isResultBase64Images := resultImages.all (fun im => im.bytesBase64Encoded.isSome)
  let insts ←
    match reqData.instances with
    | none => Except.error (jsUndefinedAccess "0")
    | some l => Except.ok l
  let inst0 ←
    match insts.head? with
    | none => Except.error (jsUndefinedAccess "prompt")
    | some i => Except.ok i
  let p : BuildParams :=
    { aspectRatio := ps.aspectRatio
      width := (usedRatio.map fun r => r.width).getD 0
      height := (usedRatio.map fun r => r.height).getD 0
      usedPrompt := inst0.prompt
      userID := appUserID
      modelVersion := modelVersion
      mode := "Generated" }
  if isResultBase64Images then
    pure (buildImageListFromBase64 env uniqueFolderId generationGcsURI p resultImages)
  else
    buildImageListFromURI env p resultImages

/-- Step 4 of `generateImage` with its catch: a rejection anywhere in
the `try` is classified by `generateCatchMsg`. -/
def generateStep4 (env : CloudEnv) (ratioToPixel : List RatioPixel)
    (uniqueFolderId : Nat) (generationGcsURI : String) (appUserID : String)
    (modelVersion : String) (reqData : GenReqData) (res : GenResponse) :
    GenReturn :=
  match genAttempt env ratioToPixel uniqueFolderId generationGcsURI appUserID
      modelVersion reqData res with
  | .ok l => .images l
  | .error e => .errValue (generateCatchMsg e)

/-! ## `editImage`, step 3 (action.tsx lines 533-564) -/

/-- The edit response shape consumed by step 3. -/
structure EditResponse where
  predictions : Option (List ModelResult)
  deriving Repr, DecidableEq

/-- What `editImage`'s step 3 produces: proceed to normalization with
the predictions, return an `{error}` value, or reject (an uncaught
throw from the catch block itself). -/
inductive EditStep3Out where
  | proceed (preds : List ModelResult)
  | errValue (e : String)
  | rejected (e : JsError)
  deriving Repr, DecidableEq

/-- Source `true` exactly on `{error}` values. -/
def EditStep3Out.isErrValue : EditStep3Out → Bool
  | .errValue _ => true
  | _ => false

/-- The catch block of `editImage` step 3 (lines 545-563): two safety
phrases surface (minus the first `"Error: "`); otherwise the code reads
`myError.errors[0].message` unguarded, throwing a `TypeError` when
`errors` is absent or empty. -/
def editCatch (e : JsError) : EditStep3Out :=
  let errorString := jsErrorToString e
  if jsIncludes errorString safetyPhrase1 || jsIncludes errorString safetyPhrase2 then
    .errValue (jsReplaceFirst errorString "Error: " "")
  else
    match e.errors with
    | none => .rejected (jsUndefinedAccess "0")
    | some [] => .rejected (jsUndefinedAccess "message")
    | some (first :: _) => .errValue first.message

/-- Step 3 of `editImage` (lines 533-564): the remote call outcome is
inspected; missing predictions or a safety-filter marker on the first
prediction are thrown and classified by `editCatch`. -/
def editStep3 (outcome : Except JsError EditResponse) : EditStep3Out :=
  let attempt : Except JsError (List ModelResult) := do
    let res ← outcome
    let preds ←
      match res.predictions with
      | none =>
        Except.error (plainError "There were an issue, no images were generated")
      | some l => Except.ok l
    let p0 ←
      match preds.head? with
      | none => Except.error jsInOperatorError
      | some p => Except.ok p
    match p0.raiFilteredReason with
    | some r => Except.error (plainError (cleanResult r))
    | none => Except.ok preds
  match attempt with
  | .ok preds => .proceed preds
  | .error e => editCatch e

/-! ## `upscaleImage`, step 4 (action.tsx lines 686-710) -/

/-- Source `const timeout = 60000` (line 688). -/
def upscaleTimeoutMs : Nat := 60000

/-- The rejection of the timeout promise (line 692). -/
def timeoutError : JsError := plainError "Upscaling timed out"

/-- The substring that selects the dedicated oversized message. -/
def oversizedTrigger : String := "Response size too large."

/-- The dedicated oversized-image user message (lines 702-705). -/
def oversizedMsg : String :=
  "Image size limit exceeded. The resulting image is too large. Please try a smaller resolution or a different image."

/-- The generic upscale failure message (line 708). -/
def genericUpscaleMsg : String := "Error while upscaling images."

/-- The upscale response shape consumed by step 4. -/
structure UpscaleResponse where
  predictions : Option (List ModelResult)
  deriving Repr, DecidableEq

/-- What `upscaleImage` returns from step 4. -/
inductive UpscaleReturn where
  | ok (newGcsUri : Option String) (mimeType : String)
  | errValue (e : String)
  deriving Repr, DecidableEq

/-- Source `Promise.race` of the remote call against the fixed timeout (lines
690-693): the remote call's settling time is made explicit; if it has
not settled before the timeout fires, the race rejects with
`timeoutError`. -/
def upscaleRace (completionTime : Nat)
    (remote : Except JsError UpscaleResponse) : Except JsError UpscaleResponse :=
  if completionTime < upscaleTimeoutMs then remote else Except.error timeoutError

/-- The catch block of `upscaleImage` (lines 699-710). -/
def upscaleCatch (e : JsError) : UpscaleReturn :=
  if jsIncludes e.message oversizedTrigger then .errValue oversizedMsg
  else .errValue genericUpscaleMsg

/-- Step 4 of `upscaleImage` (lines 686-710): race, then inspect
`predictions`, returning `{newGcsUri, mimeType}` from the first
prediction; every throw lands in `upscaleCatch`. -/
def upscaleStep4 (completionTime : Nat)
    (remote : Except JsError UpscaleResponse) : UpscaleReturn :=
  match upscaleRace completionTime remote with
  | .error e => upscaleCatch e
  | .ok res =>
    match res.predictions with
    | none =>
      upscaleCatch (plainError "There were an issue, images could not be upscaled")
    | some preds =>
      match preds.head? with
      | none => upscaleCatch (jsUndefinedAccess "gcsUri")
      | some p => .ok p.gcsUri p.mimeType

/-! ### Concrete fixtures and auxiliary predicates used by the theorems -/

/-- The storage URI recorded in a success record, for stating the C2
collision. -/
def DisplayOut.imageGcsUri : DisplayOut → Option String
  | .image r => r.gcsUri
  | _ => none

/-- Environment for the C2 collision run: uploads succeed and report the
canonical `gs://bucket/objectName` URI. -/
def c2Env : CloudEnv :=
  { decomposeUri := fun _ => .resolved "f"
    getSignedURL := fun u => .url ("signed:" ++ u)
    uploadBase64Image := fun _ bucket objectName =>
      { success := true, fileUrl := some ("gs://" ++ bucket ++ "/" ++ objectName) }
    today := "January 1, 2026" }

/-- Scalar arguments for the C2 collision run. -/
def c2Params : BuildParams :=
  { aspectRatio := "1:1", width := 1024, height := 1024, usedPrompt := "p",
    userID := "u1", modelVersion := "m", mode := "Generated" }

/-- First batch item: non-filtered, bytes `"QUJD"`. -/
def c2ItemA : ModelResult :=
  { bytesBase64Encoded := some "QUJD", mimeType := "image/png",
    prompt := some "first" }

/-- Second batch item: distinct from the first (different prompt) but
with identical base64 byte content. -/
def c2ItemB : ModelResult :=
  { bytesBase64Encoded := some "QUJD", mimeType := "image/png",
    prompt := some "second" }

/-- The concrete response used to exhibit the C4 behavior: the first
prediction carries a safety-filter marker whose reason matches no known
safety phrase. -/
def c4Response : EditResponse :=
  { predictions := some [{ raiFilteredReason := some "blocked" }] }

/-- The concrete response for the C4 witness: the filtered reason is one
of the known safety phrases. -/
def c4WitnessResponse : EditResponse :=
  { predictions := some [{ raiFilteredReason := some safetyPhrase1 }] }

/-- The claimed shape of one normalized element: a filtered input yields
the warning carrying its reason; a non-filtered input yields either the
per-item error record or a full success record. -/
def classified (m : ModelResult) (o : DisplayOut) : Prop :=
  match m.raiFilteredReason with
  | some r => o = .warning r
  | none => o = .error secAccessMsg ∨ ∃ rec, o = .image rec

/-- Environment for the concrete witness runs: `decomposeUri` rejects on
`gs://b/fail.png`, `getSignedURL` fails on `gs://b/sigfail.png`, the
upload fails on object `u/7/sample_1.png`; everything else succeeds. -/
def wEnv : CloudEnv :=
  { decomposeUri := fun u =>
      if u = "gs://b/fail.png" then .rejected (plainError "no")
      else .resolved "users/u1/generated-images/sample_0.png"
    getSignedURL := fun u =>
      if u = "gs://b/sigfail.png" then .failure "denied"
      else .url ("signed:" ++ u)
    uploadBase64Image := fun _ bucket objectName =>
      if objectName = "u/7/sample_1.png" then { success := false, error := some "nope" }
      else { success := true, fileUrl := some ("gs://" ++ bucket ++ "/" ++ objectName) }
    today := "January 1, 2026" }

/-- Scalar arguments for the witness runs. -/
def wParams : BuildParams :=
  { aspectRatio := "1:1", width := 1024, height := 1024, usedPrompt := "p",
    userID := "u1", modelVersion := "m", mode := "Generated" }

/-- A two-item base64 batch whose second item's upload fails in `wEnv`. -/
def wB64Imgs : List ModelResult :=
  [{ raiFilteredReason := some "why" },
   { bytesBase64Encoded := some "BBBB", mimeType := "image/png" }]

/-- The cloud-side failure of one base64 item: its upload fails, or the
upload succeeds and the signed-URL request returns an `{error}`. -/
def b64ItemCloudFailure (env : CloudEnv) (uniqueFolderId : Nat)
    (targetGcsURI : String) (imgs : List ModelResult) (m : ModelResult) : Prop :=
  let upload := env.uploadBase64Image (m.bytesBase64Encoded.getD "")
    (b64Bucket targetGcsURI)
    (b64FullObjectName (b64Folder targetGcsURI uniqueFolderId) imgs m)
  upload.success = false ∨
    (upload.success = true ∧
      ∃ e, env.getSignedURL (upload.fileUrl.getD "") = .failure e)

/-- A two-item base64 batch whose second item's upload fails in `wEnv`
(distinct bytes, so the synthesized names are `sample_0` / `sample_1`). -/
def wB64FailImgs : List ModelResult :=
  [{ bytesBase64Encoded := some "AAAA", mimeType := "image/png" },
   { bytesBase64Encoded := some "BBBB", mimeType := "image/png" }]

/-- A one-item URI batch whose signed-URL request fails in `wEnv`. -/
def wUriImgs : List ModelResult :=
  [{ gcsUri := some "gs://b/sigfail.png", mimeType := "image/png" }]

/-- The concrete prediction used for the C3 witness. -/
def c3Prediction : ModelResult :=
  { bytesBase64Encoded := some "AAAA", mimeType := "image/png" }

/-- The concrete well-formed response used for the C3 witness: content
present, one base64 prediction. -/
def c3Response : GenResponse :=
  { candidates := [{ content := some () }], predictions := some [c3Prediction] }

/-! ## Theorems -/

/-- Digit-folding bound: starting from `b` and appending `k` digits
`≤ 9` lands in `[b * 10^k, (b+1) * 10^k)`. -/
theorem foldl_digits_bounds (l : List Nat) (b : Nat) (h : ∀ d ∈ l, d ≤ 9) :
    b * 10 ^ l.length ≤ l.foldl (fun n d => n * 10 + d) b ∧
      l.foldl (fun n d => n * 10 + d) b < (b + 1) * 10 ^ l.length := by
  induction l generalizing b with
  | nil => simp
  | cons d t ih =>
    simp only [List.foldl_cons, List.length_cons]
    have hd : d ≤ 9 := h d (by simp)
    have ht : ∀ x ∈ t, x ≤ 9 := fun x hx => h x (by simp [hx])
    obtain ⟨h1, h2⟩ := ih (b * 10 + d) ht
    have hP : 0 < 10 ^ t.length := Nat.pos_pow_of_pos _ (by norm_num)
    constructor
    · calc b * 10 ^ (t.length + 1) = b * 10 * 10 ^ t.length := by ring
        _ ≤ (b * 10 + d) * 10 ^ t.length :=
          Nat.mul_le_mul_right _ (Nat.le_add_right _ _)
        _ ≤ _ := h1
    · calc t.foldl (fun n x => n * 10 + x) (b * 10 + d)
          < (b * 10 + d + 1) * 10 ^ t.length := h2
        _ ≤ (b + 1) * 10 * 10 ^ t.length :=
          Nat.mul_le_mul_right _ (by omega)
        _ = (b + 1) * 10 ^ (t.length + 1) := by ring

/-- C10: for every outcome of the random draws (`first ≤ 8` from
`Math.floor(Math.random() * 9)`, twelve loop digits `≤ 9`),
`generateUniqueFolderId` is an integer in `[10^12, 10^13 - 1]`:
exactly 13 decimal digits with a non-zero leading digit. -/
theorem generateUniqueFolderId_thirteen_digits (first : Nat) (draws : List Nat)
    (hfirst : first ≤ 8) (hlen : draws.length = 12) (hd : ∀ d ∈ draws, d ≤ 9) :
    10 ^ 12 ≤ generateUniqueFolderId first draws ∧
      generateUniqueFolderId first draws ≤ 10 ^ 13 - 1 := by
  obtain ⟨h1, h2⟩ := foldl_digits_bounds draws (first + 1) hd
  rw [hlen] at h1 h2
  unfold generateUniqueFolderId
  have hlow : 1 * 10 ^ 12 ≤ (first + 1) * 10 ^ 12 :=
    Nat.mul_le_mul_right _ (by omega)
  have hhigh : (first + 1 + 1) * 10 ^ 12 ≤ 10 * 10 ^ 12 :=
    Nat.mul_le_mul_right _ (by omega)
  have e1 : (1 : Nat) * 10 ^ 12 = 10 ^ 12 := by norm_num
  have e2 : (10 : Nat) * 10 ^ 12 = 10 ^ 13 := by norm_num
  omega

/-- Witness for C10 at a concrete outcome of the draws. -/
theorem generateUniqueFolderId_thirteen_digits_witness :
    10 ^ 12 ≤ generateUniqueFolderId 0 (List.replicate 12 0) ∧
      generateUniqueFolderId 0 (List.replicate 12 0) ≤ 10 ^ 13 - 1 :=
  generateUniqueFolderId_thirteen_digits 0 (List.replicate 12 0)
    (by norm_num) (by simp) (by simp)

/-- C6: when the upscale call fails with an error whose message contains
`"Response size too large."` the dedicated oversized-image message is
returned; every other failure (a plain error without the phrase, a
response without `predictions`, or an empty `predictions` array)
returns the generic upscale message. -/
theorem upscale_error_classification (t : Nat)
    (remote : Except JsError UpscaleResponse) :
    (∀ e, upscaleRace t remote = .error e →
      (jsIncludes e.message oversizedTrigger = true →
        upscaleStep4 t remote = .errValue oversizedMsg) ∧
      (jsIncludes e.message oversizedTrigger = false →
        upscaleStep4 t remote = .errValue genericUpscaleMsg)) ∧
    (∀ res, upscaleRace t remote = .ok res → res.predictions = none →
      upscaleStep4 t remote = .errValue genericUpscaleMsg) ∧
    (∀ res preds, upscaleRace t remote = .ok res → res.predictions = some preds →
      preds = [] → upscaleStep4 t remote = .errValue genericUpscaleMsg) := by
  refine ⟨?_, ?_, ?_⟩
  · intro e he
    constructor <;> intro hinc <;>
      simp [upscaleStep4, he, upscaleCatch, hinc]
  · intro res hres hnone
    simp [upscaleStep4, hres, hnone, upscaleCatch]
    decide
  · intro res preds hres hpreds hemp
    subst hemp
    simp [upscaleStep4, hres, hpreds, upscaleCatch]
    decide

/-- Witness for C6: a concrete oversized failure gets the dedicated
message. -/
theorem upscale_error_classification_witness :
    upscaleStep4 0 (.error (plainError oversizedTrigger)) =
      .errValue oversizedMsg :=
  ((upscale_error_classification 0
      (.error (plainError oversizedTrigger))).1
    (plainError oversizedTrigger) rfl).1 (by decide)

/-- C7: the timeout constant is 60000 ms (60 seconds); when the remote
call has not completed within it, the race rejects with the distinct
`"Upscaling timed out"` message and `upscaleImage` takes the
error-return path (the generic upscale error value), rather than
waiting on the remote call. -/
theorem upscale_timeout_race (t : Nat) (remote : Except JsError UpscaleResponse)
    (h : ¬ t < upscaleTimeoutMs) :
    upscaleTimeoutMs = 60000 ∧
      upscaleRace t remote = .error timeoutError ∧
      timeoutError.message = "Upscaling timed out" ∧
      upscaleStep4 t remote = .errValue genericUpscaleMsg := by
  refine ⟨rfl, ?_, rfl, ?_⟩
  · simp [upscaleRace, h]
  · simp [upscaleStep4, upscaleRace, h, upscaleCatch]
    decide

/-- Witness for C7 at a concrete late remote call. -/
theorem upscale_timeout_race_witness :
    upscaleTimeoutMs = 60000 ∧
      upscaleRace 60000 (.ok { predictions := none }) = .error timeoutError ∧
      timeoutError.message = "Upscaling timed out" ∧
      upscaleStep4 60000 (.ok { predictions := none }) =
        .errValue genericUpscaleMsg :=
  upscale_timeout_race 60000 (.ok { predictions := none }) (by decide)

/-- C2 fails on the code: `buildImageListFromBase64` derives the item
index with `findIndex` on byte equality (action.tsx line 218), not the
item's own position, so two distinct non-filtered items with identical
bytes at indices 0 and 1 get the same synthesized object name
(`sample_0`), and the second upload targets the first item's object:
the stored `gcsUri` of both output records coincides. -/
theorem b64_object_name_collision :
    c2ItemA ≠ c2ItemB ∧
    b64FileName [c2ItemA, c2ItemB] c2ItemA =
      b64FileName [c2ItemA, c2ItemB] c2ItemB ∧
    ((buildImageListFromBase64 c2Env 123 "gs://bucket/users/u1/generated-images"
        c2Params [c2ItemA, c2ItemB]).getD 0 (.warning "")).imageGcsUri =
      ((buildImageListFromBase64 c2Env 123 "gs://bucket/users/u1/generated-images"
        c2Params [c2ItemA, c2ItemB]).getD 1 (.warning "")).imageGcsUri ∧
    (((buildImageListFromBase64 c2Env 123 "gs://bucket/users/u1/generated-images"
        c2Params [c2ItemA, c2ItemB]).getD 0 (.warning "")).imageGcsUri).isSome =
      true := by
  refine ⟨by decide, by decide, by decide, by decide⟩

/-- C3 fails on the code: the step-3 request body has no `parameters`
property (the aspect ratio lives at
`generationConfig.imageConfig.aspectRatio`), yet step 4 reads
`opts.data.parameters.aspectRatio` (line 367) before reaching the
normalizer branch.  For every response that carries content (and a
predictions list), the read throws a `TypeError`, the catch matches no
safety phrase and finds no nested error list, and `generateImage`
returns `{error: "An unexpected error occurred."}` - never the
normalized `DisplayImage` list. -/
theorem generate_step4_always_errors (env : CloudEnv)
    (ratioToPixel : List RatioPixel) (uniqueFolderId : Nat)
    (generationGcsURI appUserID modelVersion fullPrompt aspectRatio : String)
    (seed : Option Int) (res : GenResponse) (preds : List ModelResult)
    (hcand : res.candidates.head? = some { content := some () })
    (_hpreds : res.predictions = some preds) :
    (mkGenerateReqData fullPrompt aspectRatio seed).parameters = none ∧
    generateStep4 env ratioToPixel uniqueFolderId generationGcsURI appUserID
        modelVersion (mkGenerateReqData fullPrompt aspectRatio seed) res =
      .errValue "An unexpected error occurred." := by
  have h1 : genAttempt env ratioToPixel uniqueFolderId generationGcsURI
      appUserID modelVersion (mkGenerateReqData fullPrompt aspectRatio seed) res
      = Except.error (jsUndefinedAccess "aspectRatio") := by
    unfold genAttempt
    rw [hcand]
    rfl
  refine ⟨rfl, ?_⟩
  unfold generateStep4
  rw [h1]
  decide

/-- C4's counterexample: at `c4Response` the call does not return an
`{error}` value at all - the catch block's unguarded
`myError.errors[0].message` itself throws, so `editImage` rejects. -/
theorem edit_rai_filtered_counterexample :
    editStep3 (.ok c4Response) = .rejected (jsUndefinedAccess "0") ∧
      (editStep3 (.ok c4Response)).isErrValue = false := by
  exact ⟨by decide, by decide⟩

/-- C4, amended: when the first prediction carries `raiFilteredReason`,
the whole call fails and no per-item normalization happens; but an
`{error}` value (containing the cleaned reason) is returned only when
the reason matches one of the two known safety phrases - otherwise the
catch block itself throws a `TypeError` and the call rejects. -/
theorem edit_rai_filtered_total_failure (outcome : Except JsError EditResponse)
    (res : EditResponse) (preds : List ModelResult) (p0 : ModelResult)
    (r : String) (h1 : outcome = .ok res) (h2 : res.predictions = some preds)
    (h3 : preds.head? = some p0) (h4 : p0.raiFilteredReason = some r) :
    (∀ l, editStep3 outcome ≠ .proceed l) ∧
    ((jsIncludes (jsErrorToString (plainError (cleanResult r))) safetyPhrase1 ||
        jsIncludes (jsErrorToString (plainError (cleanResult r))) safetyPhrase2) = true →
      editStep3 outcome =
        .errValue (jsReplaceFirst (jsErrorToString (plainError (cleanResult r)))
          "Error: " "")) ∧
    ((jsIncludes (jsErrorToString (plainError (cleanResult r))) safetyPhrase1 ||
        jsIncludes (jsErrorToString (plainError (cleanResult r))) safetyPhrase2) = false →
      editStep3 outcome = .rejected (jsUndefinedAccess "0")) := by
  subst h1
  have hstep : editStep3 (.ok res) = editCatch (plainError (cleanResult r)) := by
    unfold editStep3
    simp only [bind, Except.bind, h2, h3, h4]
  have hcatch : editCatch (plainError (cleanResult r)) =
      if (jsIncludes (jsErrorToString (plainError (cleanResult r))) safetyPhrase1 ||
          jsIncludes (jsErrorToString (plainError (cleanResult r))) safetyPhrase2) then
        .errValue (jsReplaceFirst (jsErrorToString (plainError (cleanResult r)))
          "Error: " "")
      else .rejected (jsUndefinedAccess "0") := rfl
  refine ⟨?_, ?_, ?_⟩
  · intro l
    cases hc : (jsIncludes (jsErrorToString (plainError (cleanResult r))) safetyPhrase1 ||
        jsIncludes (jsErrorToString (plainError (cleanResult r))) safetyPhrase2) <;>
      rw [hstep, hcatch, hc] <;> simp
  · intro hinc
    rw [hstep, hcatch, hinc]
    simp
  · intro hinc
    rw [hstep, hcatch, hinc]
    simp

/-- Witness for C4's amended claim: a safety-phrase reason comes back as
a returned `{error}` value holding the reason. -/
theorem edit_rai_filtered_total_failure_witness :
    editStep3 (.ok c4WitnessResponse) = .errValue safetyPhrase1 := by
  have h := edit_rai_filtered_total_failure (.ok c4WitnessResponse)
    c4WitnessResponse [{ raiFilteredReason := some safetyPhrase1 }]
    { raiFilteredReason := some safetyPhrase1 } safetyPhrase1 rfl rfl rfl rfl
  exact (h.2.1 (by decide)).trans (by decide)

/-! ### `Promise.all` sequencing lemmas -/

/-- A fulfilled `collectAll` has one output per input. -/
theorem collectAll_ok_length {f : α → Except JsError β} {l : List α}
    {out : List β} (h : collectAll f l = .ok out) : out.length = l.length := by
  induction l generalizing out with
  | nil =>
    simp only [collectAll] at h
    cases h
    rfl
  | cons a t ih =>
    simp only [collectAll, bind, Except.bind, pure, Except.pure] at h
    cases hfa : f a with
    | error e => rw [hfa] at h; cases h
    | ok b =>
      rw [hfa] at h
      cases hct : collectAll f t with
      | error e => rw [hct] at h; cases h
      | ok r =>
        rw [hct] at h
        cases h
        simp [ih hct]

/-- A fulfilled `collectAll` is elementwise the per-item function, in
input order. -/
theorem collectAll_ok_get {f : α → Except JsError β} {l : List α}
    {out : List β} (h : collectAll f l = .ok out) :
    ∀ i (hi : i < l.length) (ho : i < out.length),
      f (l.get ⟨i, hi⟩) = .ok (out.get ⟨i, ho⟩) := by
  induction l generalizing out with
  | nil => intro i hi; simp at hi
  | cons a t ih =>
    intro i hi ho
    simp only [collectAll, bind, Except.bind, pure, Except.pure] at h
    cases hfa : f a with
    | error e => rw [hfa] at h; cases h
    | ok b =>
      rw [hfa] at h
      cases hct : collectAll f t with
      | error e => rw [hct] at h; cases h
      | ok r =>
        rw [hct] at h
        cases h
        cases i with
        | zero => exact hfa
        | succ n =>
          exact ih hct n (by simpa using hi) (by simpa using ho)

/-- If some item's promise rejects, `collectAll` rejects. -/
theorem collectAll_error_of_item {f : α → Except JsError β} {l : List α}
    (i : Nat) (hi : i < l.length) {e : JsError}
    (h : f (l.get ⟨i, hi⟩) = .error e) :
    ∃ e', collectAll f l = .error e' := by
  induction l generalizing i with
  | nil => simp at hi
  | cons a t ih =>
    cases i with
    | zero =>
      have ha : f a = .error e := h
      exact ⟨e, by simp [collectAll, bind, Except.bind, ha]⟩
    | succ n =>
      cases hfa : f a with
      | error e'' => exact ⟨e'', by simp [collectAll, bind, Except.bind, hfa]⟩
      | ok b =>
        obtain ⟨e', he'⟩ := ih n (by simpa using hi) (by simpa using h)
        exact ⟨e', by simp [collectAll, bind, Except.bind, hfa, he']⟩

/-- If every item's promise fulfills, `collectAll` fulfills. -/
theorem collectAll_ok_of_forall {f : α → Except JsError β} {l : List α}
    (h : ∀ a ∈ l, ∃ b, f a = .ok b) : ∃ out, collectAll f l = .ok out := by
  induction l with
  | nil => exact ⟨[], rfl⟩
  | cons a t ih =>
    obtain ⟨b, hb⟩ := h a (by simp)
    obtain ⟨out, hout⟩ := ih (fun x hx => h x (by simp [hx]))
    exact ⟨b :: out, by simp [collectAll, bind, Except.bind, pure, Except.pure, hb, hout]⟩

/-! ### Per-item classification -/

/-- Every `b64Item` output is classified by its own input. -/
theorem b64Item_classified (env : CloudEnv) (p : BuildParams)
    (imgs : List ModelResult) (bucket folder : String) (m : ModelResult) :
    classified m (b64Item env p imgs bucket folder m) := by
  unfold classified b64Item
  cases hm : m.raiFilteredReason with
  | some r => simp
  | none =>
    dsimp only
    split
    · exact Or.inl rfl
    · split
      · exact Or.inl rfl
      · exact Or.inr ⟨_, rfl⟩

/-- Every fulfilled `uriItem` output is classified by its own input. -/
theorem uriItem_ok_classified (env : CloudEnv) (p : BuildParams)
    (m : ModelResult) (o : DisplayOut) (h : uriItem env p m = .ok o) :
    classified m o := by
  unfold classified
  unfold uriItem at h
  cases hm : m.raiFilteredReason with
  | some r =>
    rw [hm] at h
    cases h
    rfl
  | none =>
    rw [hm] at h
    cases hdec : env.decomposeUri (m.gcsUri.getD "") with
    | rejected e => rw [hdec] at h; cases h
    | resolvedNone => rw [hdec] at h; cases h
    | resolved f =>
      rw [hdec] at h
      simp only [bind, Except.bind] at h
      cases hsig : env.getSignedURL (m.gcsUri.getD "") with
      | failure e =>
        rw [hsig] at h
        cases h
        exact Or.inl rfl
      | url u =>
        rw [hsig] at h
        cases h
        exact Or.inr ⟨_, rfl⟩

/-- C1: both normalizers keep the batch's length and order - the base64
variant always, the URI variant whenever it fulfills - and each output
element is independently the warning for its own filtered input, or a
per-item error record, or a full success record; no per-item failure
removes or merges elements. -/
theorem normalizers_preserve_batch_shape :
    (∀ (env : CloudEnv) (uniqueFolderId : Nat) (targetGcsURI : String)
      (p : BuildParams) (imgs : List ModelResult),
      (buildImageListFromBase64 env uniqueFolderId targetGcsURI p imgs).length
          = imgs.length ∧
      ∀ i (hi : i < imgs.length)
        (ho : i < (buildImageListFromBase64 env uniqueFolderId targetGcsURI p imgs).length),
        classified (imgs.get ⟨i, hi⟩)
          ((buildImageListFromBase64 env uniqueFolderId targetGcsURI p imgs).get ⟨i, ho⟩)) ∧
    (∀ (env : CloudEnv) (p : BuildParams) (imgs : List ModelResult)
      (out : List DisplayOut), buildImageListFromURI env p imgs = .ok out →
      out.length = imgs.length ∧
      ∀ i (hi : i < imgs.length) (ho : i < out.length),
        classified (imgs.get ⟨i, hi⟩) (out.get ⟨i, ho⟩)) := by
  constructor
  · intro env uid gcs p imgs
    constructor
    · simp [buildImageListFromBase64]
    · intro i hi ho
      have : (buildImageListFromBase64 env uid gcs p imgs).get ⟨i, ho⟩ =
          b64Item env p imgs (b64Bucket gcs) (b64Folder gcs uid)
            (imgs.get ⟨i, hi⟩) := by
        simp [buildImageListFromBase64]
      rw [this]
      exact b64Item_classified env p imgs _ _ _
  · intro env p imgs out h
    refine ⟨collectAll_ok_length h, ?_⟩
    intro i hi ho
    exact uriItem_ok_classified env p _ _ (collectAll_ok_get h i hi ho)

/-- A failing `decomposeUri` (rejection or no usable `fileName`) makes
the per-item URI transformation reject: the failure happens before the
`try` block. -/
theorem uriItem_error_of_decompose (env : CloudEnv) (p : BuildParams)
    (m : ModelResult) (hnf : m.raiFilteredReason = none)
    (hfail : (∃ e, env.decomposeUri (m.gcsUri.getD "") = .rejected e) ∨
      env.decomposeUri (m.gcsUri.getD "") = .resolvedNone) :
    ∃ e', uriItem env p m = .error e' := by
  unfold uriItem
  rw [hnf]
  rcases hfail with ⟨e, he⟩ | he <;> rw [he]
  · exact ⟨e, rfl⟩
  · exact ⟨jsUndefinedAccess "replaceAll", rfl⟩

/-- C9: in `buildImageListFromURI`, a non-filtered item whose
`decomposeUri` fails (rejects, or resolves without a usable `fileName`)
escapes the per-item error handling: the whole call rejects instead of
producing a per-item error record, because URI decomposition happens
before the per-item `try` begins. -/
theorem uri_decompose_failure_rejects (env : CloudEnv) (p : BuildParams)
    (imgs : List ModelResult) (i : Nat) (hi : i < imgs.length)
    (hnf : (imgs.get ⟨i, hi⟩).raiFilteredReason = none)
    (hfail : (∃ e, env.decomposeUri ((imgs.get ⟨i, hi⟩).gcsUri.getD "") = .rejected e) ∨
      env.decomposeUri ((imgs.get ⟨i, hi⟩).gcsUri.getD "") = .resolvedNone) :
    ∃ e', buildImageListFromURI env p imgs = .error e' := by
  obtain ⟨e', he'⟩ := uriItem_error_of_decompose env p (imgs.get ⟨i, hi⟩) hnf hfail
  exact collectAll_error_of_item i hi he'

/-- Witness for C1 at concrete batches: the base64 output has the
batch's length and its first element is classified by the first input;
on the URI side the fulfilled output of a one-item batch has length 1. -/
theorem normalizers_preserve_batch_shape_witness :
    ((buildImageListFromBase64 wEnv 7 "gs://bucket/u" wParams wB64Imgs).length
        = wB64Imgs.length ∧
      classified (wB64Imgs.getD 0 {})
        ((buildImageListFromBase64 wEnv 7 "gs://bucket/u" wParams wB64Imgs).getD 0
          (.warning ""))) ∧
    ([DisplayOut.warning "why"] : List DisplayOut).length =
      ([{ raiFilteredReason := some "why" }] : List ModelResult).length := by
  have h := normalizers_preserve_batch_shape
  refine ⟨⟨(h.1 wEnv 7 "gs://bucket/u" wParams wB64Imgs).1, ?_⟩, ?_⟩
  · exact (h.1 wEnv 7 "gs://bucket/u" wParams wB64Imgs).2 0 (by decide) (by decide)
  · exact (h.2 wEnv wParams [{ raiFilteredReason := some "why" }]
      [DisplayOut.warning "why"] rfl).1

/-- A cloud-side failure turns one `b64Item` into the per-item error
record. -/
theorem b64Item_error_of_failure (env : CloudEnv) (p : BuildParams)
    (imgs : List ModelResult) (uniqueFolderId : Nat) (targetGcsURI : String)
    (m : ModelResult) (hnf : m.raiFilteredReason = none)
    (hfail : b64ItemCloudFailure env uniqueFolderId targetGcsURI imgs m) :
    b64Item env p imgs (b64Bucket targetGcsURI)
      (b64Folder targetGcsURI uniqueFolderId) m = .error secAccessMsg := by
  unfold b64Item
  rw [hnf]
  dsimp only
  unfold b64ItemCloudFailure at hfail
  rcases hfail with hup | ⟨hup, e, hsig⟩
  · rw [if_pos hup]
  · rw [if_neg (by simp [hup])]
    simp [hsig]

/-- A filtered item's `uriItem` fulfills with its warning record. -/
theorem uriItem_ok_of_filtered (env : CloudEnv) (p : BuildParams)
    (m : ModelResult) (r : String) (hr : m.raiFilteredReason = some r) :
    uriItem env p m = .ok (.warning r) := by
  unfold uriItem
  rw [hr]

/-- A fulfilled `decomposeUri` keeps the per-item URI transformation
from rejecting. -/
theorem uriItem_ok_of_decompose (env : CloudEnv) (p : BuildParams)
    (m : ModelResult) (f : String) (hnf : m.raiFilteredReason = none)
    (hdec : env.decomposeUri (m.gcsUri.getD "") = .resolved f) :
    ∃ o, uriItem env p m = .ok o := by
  unfold uriItem
  rw [hnf, hdec]
  cases hsig : env.getSignedURL (m.gcsUri.getD "") with
  | url u =>
    simp only [bind, Except.bind, hsig]
    exact ⟨_, rfl⟩
  | failure e =>
    simp only [bind, Except.bind, hsig]
    exact ⟨_, rfl⟩

/-- A signed-URL failure on a decomposable non-filtered item makes its
`uriItem` fulfill with the per-item error record. -/
theorem uriItem_sigfail (env : CloudEnv) (p : BuildParams) (m : ModelResult)
    (f e : String) (hnf : m.raiFilteredReason = none)
    (hdec : env.decomposeUri (m.gcsUri.getD "") = .resolved f)
    (hsig : env.getSignedURL (m.gcsUri.getD "") = .failure e) :
    uriItem env p m = .ok (.error secAccessMsg) := by
  unfold uriItem
  rw [hnf, hdec]
  simp only [bind, Except.bind, hsig]
  rfl

/-- C5: in both normalizers a cloud-side failure (upload or signed URL)
of one non-filtered item yields exactly the
`"Error while getting secured access to content."` error record for
that item; the other items are normalized by their own per-item
transformation unaffected, and the call as a whole still returns a full
batch (for the URI variant: whenever every non-filtered item's
`decomposeUri` resolves). -/
theorem per_item_failure_isolated :
    (∀ (env : CloudEnv) (uniqueFolderId : Nat) (targetGcsURI : String)
      (p : BuildParams) (imgs : List ModelResult) (i : Nat)
      (hi : i < imgs.length)
      (hnf : (imgs.get ⟨i, hi⟩).raiFilteredReason = none)
      (hfail : b64ItemCloudFailure env uniqueFolderId targetGcsURI imgs
        (imgs.get ⟨i, hi⟩)),
      (buildImageListFromBase64 env uniqueFolderId targetGcsURI p imgs).length
          = imgs.length ∧
      (buildImageListFromBase64 env uniqueFolderId targetGcsURI p imgs).getD i
          (.warning "") = .error secAccessMsg) ∧
    (∀ (env : CloudEnv) (uniqueFolderId : Nat) (targetGcsURI : String)
      (p : BuildParams) (imgs : List ModelResult) (j : Nat)
      (hj : j < imgs.length),
      (buildImageListFromBase64 env uniqueFolderId targetGcsURI p imgs).getD j
          (.warning "") =
        b64Item env p imgs (b64Bucket targetGcsURI)
          (b64Folder targetGcsURI uniqueFolderId) (imgs.get ⟨j, hj⟩)) ∧
    (∀ (env : CloudEnv) (p : BuildParams) (imgs : List ModelResult),
      (∀ m ∈ imgs, m.raiFilteredReason = none →
        ∃ f, env.decomposeUri (m.gcsUri.getD "") = .resolved f) →
      ∃ out, buildImageListFromURI env p imgs = .ok out ∧
        out.length = imgs.length ∧
        (∀ i (hi : i < imgs.length),
          (imgs.get ⟨i, hi⟩).raiFilteredReason = none →
          (∃ e, env.getSignedURL ((imgs.get ⟨i, hi⟩).gcsUri.getD "") = .failure e) →
          out.getD i (.warning "") = .error secAccessMsg) ∧
        (∀ j (hj : j < imgs.length) (ho : j < out.length),
          uriItem env p (imgs.get ⟨j, hj⟩) = .ok (out.get ⟨j, ho⟩))) := by
  refine ⟨?_, ?_, ?_⟩
  · intro env uid gcs p imgs i hi hnf hfail
    have hlen : (buildImageListFromBase64 env uid gcs p imgs).length = imgs.length := by
      simp [buildImageListFromBase64]
    refine ⟨hlen, ?_⟩
    have hio : i < (buildImageListFromBase64 env uid gcs p imgs).length := by
      rw [hlen]; exact hi
    rw [List.getD_eq_get _ _ hio]
    have hmap : (buildImageListFromBase64 env uid gcs p imgs).get ⟨i, hio⟩ =
        b64Item env p imgs (b64Bucket gcs) (b64Folder gcs uid)
          (imgs.get ⟨i, hi⟩) := by
      simp [buildImageListFromBase64]
    rw [hmap]
    exact b64Item_error_of_failure env p imgs uid gcs _ hnf hfail
  · intro env uid gcs p imgs j hj
    have hlen : (buildImageListFromBase64 env uid gcs p imgs).length = imgs.length := by
      simp [buildImageListFromBase64]
    have hjo : j < (buildImageListFromBase64 env uid gcs p imgs).length := by
      rw [hlen]; exact hj
    rw [List.getD_eq_get _ _ hjo]
    simp [buildImageListFromBase64]
  · intro env p imgs hdec
    obtain ⟨out, hout⟩ := collectAll_ok_of_forall (l := imgs) (f := uriItem env p)
      (by
        intro m hm
        cases hr : m.raiFilteredReason with
        | some r => exact ⟨_, uriItem_ok_of_filtered env p m r hr⟩
        | none =>
          obtain ⟨f, hf⟩ := hdec m hm hr
          exact uriItem_ok_of_decompose env p m f hr hf)
    refine ⟨out, hout, collectAll_ok_length hout, ?_, fun j hj ho => collectAll_ok_get hout j hj ho⟩
    intro i hi hnf hsig
    obtain ⟨e, he⟩ := hsig
    obtain ⟨f, hf⟩ := hdec _ (List.get_mem imgs _ _) hnf
    have h1 := collectAll_ok_get hout i hi (by rw [collectAll_ok_length hout]; exact hi)
    rw [uriItem_sigfail env p _ f e hnf hf he] at h1
    have h2 : DisplayOut.error secAccessMsg =
        out.get ⟨i, by rw [collectAll_ok_length hout]; exact hi⟩ := by
      injection h1
    rw [List.getD_eq_get _ _ (by rw [collectAll_ok_length hout]; exact hi)]
    exact h2.symm

/-- Witness for C9 at a concrete batch whose only item's `decomposeUri`
rejects. -/
theorem uri_decompose_failure_rejects_witness :
    ∃ e', buildImageListFromURI wEnv wParams
      [{ gcsUri := some "gs://b/fail.png", mimeType := "image/png" }] = .error e' :=
  uri_decompose_failure_rejects wEnv wParams
    [{ gcsUri := some "gs://b/fail.png", mimeType := "image/png" }] 0
    (by decide) (by decide) (Or.inl ⟨plainError "no", by decide⟩)

/-- Witness for C5: in `wEnv` the failing base64 item becomes its error
record inside a full-length batch, and a URI batch with a signed-URL
failure still fulfills with the error record at that position. -/
theorem per_item_failure_isolated_witness :
    ((buildImageListFromBase64 wEnv 7 "gs://bucket/u" wParams wB64FailImgs).length
        = wB64FailImgs.length ∧
      (buildImageListFromBase64 wEnv 7 "gs://bucket/u" wParams wB64FailImgs).getD 1
        (.warning "") = .error secAccessMsg) ∧
    (∃ out, buildImageListFromURI wEnv wParams wUriImgs = .ok out ∧
      out.length = wUriImgs.length ∧
      out.getD 0 (.warning "") = .error secAccessMsg) := by
  constructor
  · exact per_item_failure_isolated.1 wEnv 7 "gs://bucket/u" wParams wB64FailImgs
      1 (by decide) (by decide) (Or.inl (by decide))
  · obtain ⟨out, h1, h2, h3, _⟩ := per_item_failure_isolated.2.2 wEnv wParams
      wUriImgs
      (by
        intro m hm hnf
        rw [wUriImgs, List.mem_singleton] at hm
        subst hm
        exact ⟨"users/u1/generated-images/sample_0.png", by decide⟩)
    exact ⟨out, h1, h2, h3 0 (by decide) (by decide) ⟨"denied", by decide⟩⟩

/-- Witness for C3's behavior at a concrete well-formed response. -/
theorem generate_step4_always_errors_witness :
    (mkGenerateReqData "a prompt" "1:1" none).parameters = none ∧
    generateStep4 wEnv [] 7 "gs://bucket/u/generated-images" "u1"
        "gemini-2.5-flash-image" (mkGenerateReqData "a prompt" "1:1" none)
        c3Response = .errValue "An unexpected error occurred." :=
  generate_step4_always_errors wEnv [] 7 "gs://bucket/u/generated-images" "u1"
    "gemini-2.5-flash-image" "a prompt" "1:1" none c3Response [c3Prediction]
    rfl rfl

/-! ### Character-level facts about the basic latin case mappings -/

/-- Source `Char.ofNat` round-trips on code points below the surrogate range. -/
theorem toNat_ofNat_valid (n : Nat) (h : n < 55296) : (Char.ofNat n).toNat = n := by
  rw [Char.ofNat, dif_pos (Or.inl h)]
  rfl

/-- Characters are determined by their code point. -/
theorem char_toNat_inj {a b : Char} (h : a.toNat = b.toNat) : a = b :=
  Char.ext_iff.mpr (UInt32.ext_iff.mpr h)

/-- The code point of `Char.toLower`. -/
theorem toNat_toLower (c : Char) :
    (Char.toLower c).toNat =
      if 65 ≤ c.toNat ∧ c.toNat ≤ 90 then c.toNat + 32 else c.toNat := by
  rw [Char.toLower]
  split
  · next h => exact toNat_ofNat_valid _ (by omega)
  · next h => rfl

/-- The code point of `Char.toUpper`. -/
theorem toNat_toUpper (c : Char) :
    (Char.toUpper c).toNat =
      if 97 ≤ c.toNat ∧ c.toNat ≤ 122 then c.toNat - 32 else c.toNat := by
  rw [Char.toUpper]
  split
  · next h => exact toNat_ofNat_valid _ (by omega)
  · next h => rfl

/-- Lowercasing is idempotent. -/
theorem toLower_toLower (c : Char) :
    Char.toLower (Char.toLower c) = Char.toLower c := by
  apply char_toNat_inj
  rw [toNat_toLower, toNat_toLower]
  split_ifs <;> omega

/-- Lowercasing after uppercasing is plain lowercasing. -/
theorem toLower_toUpper (c : Char) :
    Char.toLower (Char.toUpper c) = Char.toLower c := by
  apply char_toNat_inj
  rw [toNat_toLower, toNat_toUpper, toNat_toLower]
  split_ifs <;> omega

/-- Only the space lowercases to a space. -/
theorem toLower_space (c : Char) (h : Char.toLower c = ' ') : c = ' ' := by
  apply char_toNat_inj
  have hn := congrArg Char.toNat h
  rw [toNat_toLower] at hn
  show c.toNat = 32
  have h32 : (' ' : Char).toNat = 32 := by decide
  rw [h32] at hn
  split_ifs at hn <;> omega

/-- Commas are untouched by lowercasing. -/
theorem toLower_comma (c : Char) : Char.toLower c = ',' ↔ c = ',' := by
  constructor
  · intro h
    apply char_toNat_inj
    have hn := congrArg Char.toNat h
    rw [toNat_toLower] at hn
    have h44 : (',' : Char).toNat = 44 := by decide
    rw [h44] at hn
    show c.toNat = 44
    split_ifs at hn <;> omega
  · intro h; subst h; decide

/-- Commas are untouched by uppercasing. -/
theorem toUpper_comma (c : Char) : Char.toUpper c = ',' ↔ c = ',' := by
  constructor
  · intro h
    apply char_toNat_inj
    have hn := congrArg Char.toNat h
    rw [toNat_toUpper] at hn
    have h44 : (',' : Char).toNat = 44 := by decide
    rw [h44] at hn
    show c.toNat = 44
    split_ifs at hn <;> omega
  · intro h; subst h; decide

/-- Membership in the trim whitespace set, by code point. -/
theorem jsWS_iff (c : Char) :
    jsWS c = true ↔ (c.toNat = 32 ∨ c.toNat = 9 ∨ c.toNat = 10 ∨ c.toNat = 11 ∨
      c.toNat = 12 ∨ c.toNat = 13 ∨ c.toNat = 160 ∨ c.toNat = 0x1680 ∨
      c.toNat = 0x2000 ∨ c.toNat = 0x2001 ∨ c.toNat = 0x2002 ∨
      c.toNat = 0x2003 ∨ c.toNat = 0x2004 ∨ c.toNat = 0x2005 ∨
      c.toNat = 0x2006 ∨ c.toNat = 0x2007 ∨ c.toNat = 0x2008 ∨
      c.toNat = 0x2009 ∨ c.toNat = 0x200A ∨ c.toNat = 0x2028 ∨
      c.toNat = 0x2029 ∨ c.toNat = 0x202F ∨ c.toNat = 0x205F ∨
      c.toNat = 0x3000 ∨ c.toNat = 0xFEFF) := by
  unfold jsWS
  simp only [Bool.or_eq_true, beq_iff_eq]
  omega

/-- Lowercasing never creates trim whitespace. -/
theorem jsWS_toLower (c : Char) (h : jsWS (Char.toLower c) = true) :
    jsWS c = true := by
  rw [jsWS_iff] at h ⊢
  rw [toNat_toLower] at h
  split_ifs at h <;> omega

/-- Uppercasing never creates trim whitespace. -/
theorem jsWS_toUpper (c : Char) (h : jsWS (Char.toUpper c) = true) :
    jsWS c = true := by
  rw [jsWS_iff] at h ⊢
  rw [toNat_toUpper] at h
  split_ifs at h <;> omega

/-- Lowercasing preserves being a non-space. -/
theorem toLower_notSpace (c : Char) (h : c ≠ ' ') : Char.toLower c ≠ ' ' :=
  fun hc => h (toLower_space c hc)

/-! ### Word-splitting lemmas -/

/-- Source `splitSp` never returns an empty word list. -/
theorem splitSp_ne_nil (l : List Char) : splitSp l ≠ [] := by
  induction l with
  | nil => simp [splitSp]
  | cons c rest ih =>
    by_cases hc : c = ' '
    · simp [splitSp, hc]
    · cases h : splitSp rest <;> simp [splitSp, hc, h]

/-- Words produced by `splitSp` contain no space. -/
theorem splitSp_no_space (l : List Char) : ∀ w ∈ splitSp l, ' ' ∉ w := by
  induction l with
  | nil =>
    intro w hw
    simp [splitSp] at hw
    simp [hw]
  | cons c rest ih =>
    intro w hw
    by_cases hc : c = ' '
    · rw [splitSp, if_pos hc] at hw
      rcases List.mem_cons.mp hw with h | h
      · simp [h]
      · exact ih w h
    · rw [splitSp, if_neg hc] at hw
      cases h : splitSp rest with
      | nil => exact absurd h (splitSp_ne_nil rest)
      | cons wh wt =>
        rw [h] at hw
        rcases List.mem_cons.mp hw with h2 | h2
        · subst h2
          intro hmem
          rcases List.mem_cons.mp hmem with h3 | h3
          · exact hc h3.symm
          · exact ih wh (h ▸ List.mem_cons_self _ _) h3
        · exact ih w (h ▸ List.mem_cons_of_mem _ h2)

/-- Every character of a `splitSp` word comes from the input. -/
theorem splitSp_chars_mem (l : List Char) :
    ∀ w ∈ splitSp l, ∀ c ∈ w, c ∈ l := by
  induction l with
  | nil =>
    intro w hw
    simp [splitSp] at hw
    simp [hw]
  | cons c rest ih =>
    intro w hw x hx
    by_cases hc : c = ' '
    · rw [splitSp, if_pos hc] at hw
      rcases List.mem_cons.mp hw with h | h
      · subst h; simp at hx
      · exact List.mem_cons_of_mem _ (ih w h x hx)
    · rw [splitSp, if_neg hc] at hw
      cases h : splitSp rest with
      | nil => exact absurd h (splitSp_ne_nil rest)
      | cons wh wt =>
        rw [h] at hw
        rcases List.mem_cons.mp hw with h2 | h2
        · subst h2
          rcases List.mem_cons.mp hx with h3 | h3
          · simp [h3]
          · exact List.mem_cons_of_mem _
              (ih wh (h ▸ List.mem_cons_self _ _) x h3)
        · exact List.mem_cons_of_mem _
            (ih w (h ▸ List.mem_cons_of_mem _ h2) x hx)

/-- Splitting commutes with lowercasing. -/
theorem splitSp_lowerList (l : List Char) :
    splitSp (lowerList l) = (splitSp l).map lowerList := by
  induction l with
  | nil => simp [splitSp, lowerList]
  | cons c rest ih =>
    by_cases hc : c = ' '
    · subst hc
      have hl : Char.toLower ' ' = ' ' := by decide
      show splitSp (Char.toLower ' ' :: lowerList rest) = _
      rw [hl, splitSp, if_pos rfl, ih, splitSp, if_pos rfl]
      rfl
    · have hl : Char.toLower c ≠ ' ' := toLower_notSpace c hc
      show splitSp (Char.toLower c :: lowerList rest) = _
      rw [splitSp, if_neg hl, ih]
      cases h : splitSp rest with
      | nil => exact absurd h (splitSp_ne_nil rest)
      | cons wh wt =>
        rw [splitSp, if_neg hc, h]
        rfl

/-- Splitting a space-free word followed by a space peels off the word. -/
theorem splitSp_append_space (w l : List Char) (hw : ' ' ∉ w) :
    splitSp (w ++ ' ' :: l) = w :: splitSp l := by
  induction w with
  | nil => simp [splitSp]
  | cons c w' ih =>
    have hc : c ≠ ' ' := fun h => hw (h ▸ List.mem_cons_self _ _)
    have hw' : ' ' ∉ w' := fun h => hw (List.mem_cons_of_mem _ h)
    show splitSp (c :: (w' ++ ' ' :: l)) = _
    rw [splitSp, if_neg hc, ih hw']

/-- Splitting a space-free word alone yields that single word. -/
theorem splitSp_of_no_space (w : List Char) (hw : ' ' ∉ w) :
    splitSp w = [w] := by
  induction w with
  | nil => rfl
  | cons c w' ih =>
    have hc : c ≠ ' ' := fun h => hw (h ▸ List.mem_cons_self _ _)
    have hw' : ' ' ∉ w' := fun h => hw (List.mem_cons_of_mem _ h)
    rw [splitSp, if_neg hc, ih hw']

/-- Splitting the single-space join of space-free words recovers the
words. -/
theorem splitSp_interSp (ws : List (List Char)) (hne : ws ≠ [])
    (hsp : ∀ w ∈ ws, ' ' ∉ w) : splitSp (interSp ws) = ws := by
  induction ws with
  | nil => exact absurd rfl hne
  | cons w t ih =>
    cases t with
    | nil => exact splitSp_of_no_space w (hsp w (List.mem_cons_self _ _))
    | cons v t' =>
      rw [interSp,
        splitSp_append_space w _ (hsp w (List.mem_cons_self _ _)),
        ih (by simp) (fun x hx => hsp x (List.mem_cons_of_mem _ hx))]

/-! ### Capitalization-loop lemmas -/

/-- Source `capLoop` on a cons. -/
theorem capLoop_cons (b : Bool) (w : List Char) (ws : List (List Char)) :
    capLoop b (w :: ws) =
      (if b then capWord w else w) ::
        capLoop (endsPunct (if b then capWord w else w)) ws := rfl

/-- Every word out of `capLoop` is an input word, possibly capitalized. -/
theorem capLoop_words (b : Bool) (ws : List (List Char)) :
    ∀ w' ∈ capLoop b ws, ∃ w ∈ ws, w' = w ∨ w' = capWord w := by
  induction ws generalizing b with
  | nil => intro w' hw'; simp [capLoop] at hw'
  | cons w t ih =>
    intro w' hw'
    rw [capLoop_cons] at hw'
    rcases List.mem_cons.mp hw' with h | h
    · refine ⟨w, List.mem_cons_self _ _, ?_⟩
      cases b <;> simp at h <;> simp [h]
    · obtain ⟨x, hx, hcase⟩ := ih _ w' h
      exact ⟨x, List.mem_cons_of_mem _ hx, hcase⟩

/-- Capitalizing keeps a word nonempty. -/
theorem capWord_ne_nil (w : List Char) (h : w ≠ []) : capWord w ≠ [] := by
  cases w with
  | nil => exact absurd rfl h
  | cons c t => simp [capWord]

/-- Capitalizing introduces no trim whitespace. -/
theorem capWord_wsFree (w : List Char) (h : ∀ c ∈ w, jsWS c = false) :
    ∀ c ∈ capWord w, jsWS c = false := by
  cases w with
  | nil => intro c hc; simp [capWord] at hc
  | cons a t =>
    intro c hc
    rcases List.mem_cons.mp hc with h2 | h2
    · subst h2
      cases hj : jsWS (Char.toUpper a) with
      | false => rfl
      | true =>
        have := jsWS_toUpper a hj
        rw [h a (List.mem_cons_self _ _)] at this
        cases this
    · exact h c (List.mem_cons_of_mem _ h2)

/-- Lowercasing undoes capitalization. -/
theorem lowerList_capWord (w : List Char) :
    lowerList (capWord w) = lowerList w := by
  cases w with
  | nil => rfl
  | cons c t =>
    show Char.toLower (Char.toUpper c) :: lowerList t = Char.toLower c :: lowerList t
    rw [toLower_toUpper]

/-- Lowercasing the capitalized words gives the lowercased words. -/
theorem map_lowerList_capLoop (b : Bool) (ws : List (List Char)) :
    (capLoop b ws).map lowerList = ws.map lowerList := by
  induction ws generalizing b with
  | nil => rfl
  | cons w t ih =>
    rw [capLoop_cons]
    show lowerList (if b then capWord w else w) :: _ = lowerList w :: _
    have h1 : lowerList (if b then capWord w else w) = lowerList w := by
      cases b
      · rfl
      · simpa using lowerList_capWord w
    rw [h1]
    exact congrArg _ (ih _)

/-- Capitalization does not change whether a word starts with a comma. -/
theorem capWord_head_comma (w : List Char) :
    ((capWord w).head? = some ',') ↔ (w.head? = some ',') := by
  cases w with
  | nil => simp [capWord]
  | cons c t =>
    show (some (Char.toUpper c) = some ',') ↔ (some c = some ',')
    constructor
    · intro h
      exact congrArg some ((toUpper_comma c).mp (Option.some.inj h))
    · intro h
      exact congrArg some ((toUpper_comma c).mpr (Option.some.inj h))

/-- Capitalization does not change whether a word ends with a comma. -/
theorem capWord_getLast_comma (w : List Char) :
    ((capWord w).getLast? = some ',') ↔ (w.getLast? = some ',') := by
  match w with
  | [] => simp [capWord]
  | [c] =>
    show ([Char.toUpper c].getLast? = some ',') ↔ ([c].getLast? = some ',')
    simp only [List.getLast?_singleton]
    constructor
    · intro h
      exact congrArg some ((toUpper_comma c).mp (Option.some.inj h))
    · intro h
      exact congrArg some ((toUpper_comma c).mpr (Option.some.inj h))
  | c :: d :: t =>
    show ((Char.toUpper c :: d :: t).getLast? = some ',') ↔ _
    rw [List.getLast?_cons_cons, List.getLast?_cons_cons]

/-- The comma-pair freedom survives the capitalization loop. -/
theorem noCommaPairB_capLoop (b : Bool) (ws : List (List Char))
    (h : noCommaPairB ws = true) : noCommaPairB (capLoop b ws) = true := by
  induction ws generalizing b with
  | nil => rfl
  | cons w t ih =>
    cases t with
    | nil => cases b <;> rfl
    | cons v t' =>
      rw [noCommaPairB, Bool.and_eq_true] at h
      obtain ⟨hpair, htail⟩ := h
      rw [capLoop_cons]
      rw [capLoop_cons]
      rw [noCommaPairB, Bool.and_eq_true]
      constructor
      · have hw : (((if b then capWord w else w).getLast? = some ',')) ↔
            (w.getLast? = some ',') := by
          cases b
          · simp
          · simpa using capWord_getLast_comma w
        have hv : ∀ s : Bool, (((if s then capWord v else v).head? = some ',')) ↔
            (v.head? = some ',') := by
          intro s
          cases s
          · simp
          · simpa using capWord_head_comma v
        simp only [Bool.not_eq_true', Bool.and_eq_false_iff] at hpair ⊢
        rcases hpair with hp | hp
        · left
          rw [beq_eq_false_iff_ne] at hp ⊢
          intro hcon
          exact hp (hw.mp hcon)
        · right
          rw [beq_eq_false_iff_ne] at hp ⊢
          intro hcon
          exact hp ((hv _).mp hcon)
      · have := ih (endsPunct (if b then capWord w else w)) htail
        rw [capLoop_cons] at this
        exact this

/-! ### Join, collapse and trim lemmas -/

/-- The single-space join of nonempty words is nonempty. -/
theorem interSp_ne_nil (ws : List (List Char)) (hne : ws ≠ [])
    (hAllNE : ∀ w ∈ ws, w ≠ []) : interSp ws ≠ [] := by
  cases ws with
  | nil => exact absurd rfl hne
  | cons w t =>
    cases t with
    | nil => exact hAllNE w (List.mem_cons_self _ _)
    | cons v t' =>
      rw [interSp]
      cases hw : w with
      | nil => exact absurd hw (hAllNE w (List.mem_cons_self _ _))
      | cons c w' => simp

/-- The head of the join is the head of the first word. -/
theorem interSp_head (w : List Char) (t : List (List Char)) (hw : w ≠ []) :
    (interSp (w :: t)).head? = w.head? := by
  cases t with
  | nil => rfl
  | cons v t' =>
    rw [interSp]
    cases w with
    | nil => exact absurd rfl hw
    | cons c w' => rfl

/-- The last character of the join is the last character of some word. -/
theorem interSp_getLast (ws : List (List Char)) (hne : ws ≠ [])
    (hAllNE : ∀ w ∈ ws, w ≠ []) :
    ∃ wl ∈ ws, (interSp ws).getLast? = wl.getLast? := by
  induction ws with
  | nil => exact absurd rfl hne
  | cons w t ih =>
    cases t with
    | nil => exact ⟨w, List.mem_cons_self _ _, rfl⟩
    | cons v t' =>
      obtain ⟨wl, hmem, heq⟩ := ih (by simp)
        (fun x hx => hAllNE x (List.mem_cons_of_mem _ hx))
      refine ⟨wl, List.mem_cons_of_mem _ hmem, ?_⟩
      rw [interSp, List.getLast?_append_of_ne_nil _ (by simp)]
      have hi : interSp (v :: t') ≠ [] := interSp_ne_nil _ (by simp)
        (fun x hx => hAllNE x (List.mem_cons_of_mem _ hx))
      cases hx : interSp (v :: t') with
      | nil => exact absurd hx hi
      | cons y ys =>
        rw [List.getLast?_cons_cons]
        rw [hx] at heq
        exact heq

/-- The loop's join is the single-space join plus one trailing space. -/
theorem joinSp_eq (ws : List (List Char)) (hne : ws ≠ []) :
    joinSp ws = interSp ws ++ [' '] := by
  induction ws with
  | nil => exact absurd rfl hne
  | cons w t ih =>
    cases t with
    | nil => rfl
    | cons v t' =>
      show w ++ ' ' :: joinSp (v :: t') = (w ++ ' ' :: interSp (v :: t')) ++ [' ']
      rw [ih (by simp)]
      simp

/-- Space collapsing passes over a space-free block. -/
theorem collapseSp_append (w l : List Char) (hw : ' ' ∉ w) :
    collapseSp (w ++ l) = w ++ collapseSp l := by
  induction w with
  | nil => rfl
  | cons c w' ih =>
    have hc : c ≠ ' ' := fun h => hw (h ▸ List.mem_cons_self _ _)
    have hw' : ' ' ∉ w' := fun h => hw (List.mem_cons_of_mem _ h)
    show collapseSp (c :: (w' ++ l)) = c :: (w' ++ collapseSp l)
    cases hcase : w' ++ l with
    | nil =>
      rcases List.append_eq_nil.mp hcase with ⟨h1, h2⟩
      subst h1; subst h2
      rfl
    | cons d rest =>
      rw [collapseSp, if_neg (by simp [hc])]
      rw [← hcase, ih hw']

/-- Space collapsing keeps a single space before a non-space. -/
theorem collapseSp_space_cons (l : List Char) (hl : l.head? ≠ some ' ') :
    collapseSp (' ' :: l) = ' ' :: collapseSp l := by
  cases l with
  | nil => rfl
  | cons d rest =>
    have hd : d ≠ ' ' := fun h => hl (by simp [h])
    rw [collapseSp, if_neg (by simp [hd])]

/-- The loop's join of nonempty space-free words has no space runs, so
collapsing is the identity on it. -/
theorem collapseSp_joinSp (ws : List (List Char))
    (hAllNE : ∀ w ∈ ws, w ≠ []) (hsp : ∀ w ∈ ws, ' ' ∉ w) :
    collapseSp (joinSp ws) = joinSp ws := by
  induction ws with
  | nil => rfl
  | cons w t ih =>
    show collapseSp (w ++ ' ' :: joinSp t) = w ++ ' ' :: joinSp t
    rw [collapseSp_append _ _ (hsp w (List.mem_cons_self _ _))]
    have hhead : (joinSp t).head? ≠ some ' ' := by
      cases t with
      | nil => simp [joinSp]
      | cons v t' =>
        show (v ++ ' ' :: joinSp t').head? ≠ some ' '
        cases hv : v with
        | nil => exact absurd hv (hAllNE v (List.mem_cons_of_mem _ (List.mem_cons_self _ _)))
        | cons c v' =>
          have hc : c ≠ ' ' := fun h =>
            hsp v (List.mem_cons_of_mem _ (List.mem_cons_self _ _))
              (hv ▸ (h ▸ List.mem_cons_self _ _))
          simp [hc]
    rw [collapseSp_space_cons _ hhead,
      ih (fun x hx => hAllNE x (List.mem_cons_of_mem _ hx))
        (fun x hx => hsp x (List.mem_cons_of_mem _ hx))]

/-- Dropping leading whitespace is the identity when the head is not
whitespace. -/
theorem dropWhile_eq_self_head (l : List Char)
    (h : ∀ x, l.head? = some x → jsWS x = false) :
    l.dropWhile jsWS = l := by
  cases l with
  | nil => rfl
  | cons c t =>
    rw [List.dropWhile_cons, h c rfl]
    simp

/-- Trimming the join plus its trailing space recovers the join, when
the join starts and ends with non-whitespace. -/
theorem trimList_append_space (u : List Char) (hu : u ≠ [])
    (hh : ∀ x, u.head? = some x → jsWS x = false)
    (hl : ∀ x, u.getLast? = some x → jsWS x = false) :
    trimList (u ++ [' ']) = u := by
  unfold trimList
  have s1 : (u ++ [' ']).dropWhile jsWS = u ++ [' '] := by
    apply dropWhile_eq_self_head
    intro x hx
    cases u with
    | nil => exact absurd rfl hu
    | cons c t =>
      apply hh
      simpa using hx
  rw [s1]
  have s2 : (u ++ [' ']).reverse = ' ' :: u.reverse := by simp
  rw [s2]
  have s3 : (' ' :: u.reverse).dropWhile jsWS = u.reverse.dropWhile jsWS := by
    rw [List.dropWhile_cons, if_pos (by decide)]
  rw [s3]
  have s4 : u.reverse.dropWhile jsWS = u.reverse := by
    apply dropWhile_eq_self_head
    intro x hx
    rw [List.head?_reverse] at hx
    exact hl x hx
  rw [s4, List.reverse_reverse]

/-! ### Comma-collapsing lemmas -/

/-- The comma scan passes over a leading space. -/
theorem rcommas_space_cons (l : List Char) :
    rcommas (' ' :: l) = ' ' :: rcommas l := by
  match l with
  | [] => rfl
  | [e] => rfl
  | e :: f :: r =>
    rw [rcommas, if_neg (by simp)]

/-- The comma scan is the identity on space-free text (the pattern
needs a space). -/
theorem rcommas_no_space (l : List Char) (h : ' ' ∉ l) : rcommas l = l := by
  induction l using rcommas.induct with
  | case1 => rfl
  | case2 => rfl
  | case3 => rfl
  | case4 c d e rest hcond ih =>
    obtain ⟨-, hd, -⟩ := hcond
    exact absurd (hd ▸ (List.mem_cons_of_mem _ (List.mem_cons_self _ _))) h
  | case5 c d e rest hcond ih =>
    rw [rcommas, if_neg hcond,
      ih (fun hm => h (List.mem_cons_of_mem _ hm))]

/-- The comma scan passes over a space-free word (with a comma-safe
boundary) followed by a space. -/
theorem rcommas_word_append (w l : List Char) (hw : ' ' ∉ w) (hne : w ≠ [])
    (hcomma : ¬(w.getLast? = some ',' ∧ l.head? = some ',')) :
    rcommas (w ++ ' ' :: l) = w ++ ' ' :: rcommas l := by
  induction w with
  | nil => exact absurd rfl hne
  | cons c w' ih =>
    cases w' with
    | nil =>
      show rcommas (c :: ' ' :: l) = c :: ' ' :: rcommas l
      cases l with
      | nil => rfl
      | cons e rest =>
        have hcne : ¬(c = ',' ∧ ' ' = ' ' ∧ e = ',') := by
          rintro ⟨hc, -, he⟩
          exact hcomma ⟨by simp [hc], by simp [he]⟩
        rw [rcommas, if_neg hcne, rcommas_space_cons]
    | cons c2 w'' =>
      have hc2 : c2 ≠ ' ' := fun h =>
        hw (List.mem_cons_of_mem _ (h ▸ List.mem_cons_self _ _))
      show rcommas (c :: c2 :: (w'' ++ ' ' :: l)) =
        c :: c2 :: (w'' ++ ' ' :: rcommas l)
      cases hc3 : w'' ++ ' ' :: l with
      | nil => simp at hc3
      | cons z zs =>
        rw [show rcommas (c :: c2 :: z :: zs) =
            if c = ',' ∧ c2 = ' ' ∧ z = ',' then ',' :: rcommas zs
            else c :: rcommas (c2 :: z :: zs) from rfl]
        rw [if_neg (by rintro ⟨-, habs, -⟩; exact hc2 habs), ← hc3]
        have hrec := ih
          (fun h => hw (List.mem_cons_of_mem _ h))
          (by simp)
          (by
            intro ⟨ha, hb⟩
            exact hcomma ⟨by rw [List.getLast?_cons_cons]; exact ha, hb⟩)
        show c :: rcommas ((c2 :: w'') ++ ' ' :: l) = _
        rw [hrec]
        rfl

/-- The comma scan is the identity on the single-space join of
space-free, nonempty, comma-pair-free words. -/
theorem rcommas_interSp (ws : List (List Char))
    (hAllNE : ∀ w ∈ ws, w ≠ []) (hsp : ∀ w ∈ ws, ' ' ∉ w)
    (hncp : noCommaPairB ws = true) : rcommas (interSp ws) = interSp ws := by
  induction ws with
  | nil => rfl
  | cons w t ih =>
    cases t with
    | nil => exact rcommas_no_space w (hsp w (List.mem_cons_self _ _))
    | cons v t' =>
      rw [noCommaPairB, Bool.and_eq_true] at hncp
      obtain ⟨hpair, htail⟩ := hncp
      rw [interSp]
      rw [rcommas_word_append w _ (hsp w (List.mem_cons_self _ _))
        (hAllNE w (List.mem_cons_self _ _))
        (by
          intro ⟨ha, hb⟩
          rw [interSp_head v t'
            (hAllNE v (List.mem_cons_of_mem _ (List.mem_cons_self _ _)))] at hb
          simp only [Bool.not_eq_true', Bool.and_eq_false_iff,
            beq_eq_false_iff_ne] at hpair
          rcases hpair with hp | hp
          · exact hp ha
          · exact hp hb)]
      rw [ih (fun x hx => hAllNE x (List.mem_cons_of_mem _ hx))
        (fun x hx => hsp x (List.mem_cons_of_mem _ hx)) htail]

/-! ### Assembly of the normalizer pipeline -/

/-- Lowercasing distributes over the single-space join. -/
theorem lowerList_interSp (ws : List (List Char)) :
    lowerList (interSp ws) = interSp (ws.map lowerList) := by
  induction ws with
  | nil => rfl
  | cons w t ih =>
    cases t with
    | nil => rfl
    | cons v t' =>
      show lowerList (w ++ ' ' :: interSp (v :: t')) = _
      have : lowerList (w ++ ' ' :: interSp (v :: t')) =
          lowerList w ++ ' ' :: lowerList (interSp (v :: t')) := by
        unfold lowerList
        rw [List.map_append]
        rfl
      rw [this, ih]
      rfl

/-- A list of already-lowercased characters is fixed by lowercasing. -/
theorem lowerList_idem_chars (w : List Char)
    (h : ∀ c ∈ w, Char.toLower c = c) : lowerList w = w := by
  induction w with
  | nil => rfl
  | cons c t ih =>
    show Char.toLower c :: lowerList t = c :: t
    rw [h c (List.mem_cons_self _ _),
      ih (fun x hx => h x (List.mem_cons_of_mem _ hx))]

/-- The head element of a list is a member. -/
theorem mem_of_head?_eq {l : List Char} {x : Char} (h : l.head? = some x) :
    x ∈ l := by
  cases l with
  | nil => cases h
  | cons c t =>
    cases h
    exact List.mem_cons_self _ _

/-- The last element of a list is a member. -/
theorem mem_of_getLast?_eq {l : List Char} {x : Char} (h : l.getLast? = some x) :
    x ∈ l := by
  induction l with
  | nil => cases h
  | cons c t ih =>
    cases t with
    | nil =>
      cases h
      exact List.mem_cons_self _ _
    | cons d t' =>
      rw [List.getLast?_cons_cons] at h
      exact List.mem_cons_of_mem _ (ih h)

/-- The collapse-trim-commas chain is the single-space join, for any
batch of nonempty whitespace-free comma-pair-free words. -/
theorem normalize_chain (ws : List (List Char)) (hne : ws ≠ [])
    (hAllNE : ∀ w ∈ ws, w ≠ [])
    (hwsf : ∀ w ∈ ws, ∀ c ∈ w, jsWS c = false)
    (hncp : noCommaPairB ws = true) :
    rcommas (trimList (collapseSp (joinSp ws))) = interSp ws := by
  have hsp : ∀ w ∈ ws, ' ' ∉ w := by
    intro w hw hmem
    have := hwsf w hw ' ' hmem
    exact absurd this (by decide)
  rw [collapseSp_joinSp ws hAllNE hsp]
  rw [joinSp_eq ws hne]
  rw [trimList_append_space (interSp ws)
    (interSp_ne_nil ws hne hAllNE)
    (by
      intro x hx
      cases ws with
      | nil => exact absurd rfl hne
      | cons w t =>
        rw [interSp_head w t (hAllNE w (List.mem_cons_self _ _))] at hx
        exact hwsf w (List.mem_cons_self _ _) x (mem_of_head?_eq hx))
    (by
      intro x hx
      obtain ⟨wl, hmem, heq⟩ := interSp_getLast ws hne hAllNE
      rw [heq] at hx
      exact hwsf wl hmem x (mem_of_getLast?_eq hx))]
  exact rcommas_interSp ws hAllNE hsp hncp

/-- C8's counterexample: `normalizeSentence` is not idempotent; on
`"a.  b"` the double space swallows the capitalization flag in the
first pass, so the second pass produces `"A. B"` from `"A. b"`. -/
theorem normalizeSentence_not_idempotent :
    normalizeSentence (normalizeSentence "a.  b") ≠ normalizeSentence "a.  b" := by
  decide

/-- C8, amended: `normalizeSentence` is idempotent on every ASCII input
whose split-on-spaces words (after lowercasing) are all nonempty (no
leading, trailing or repeated spaces), contain no whitespace other than
the separating single spaces, and never end in a comma directly before
a word starting with a comma (no `", ,"`).

The ASCII hypothesis keeps the statement inside the embedding's
faithful fragment: on ASCII text every pipeline step (case mapping,
split, capitalize, collapse, trim, comma replace) agrees
character-for-character with the JavaScript source and all intermediate
strings stay ASCII.  Outside ASCII the claim is false of the source for
reasons the embedding cannot express - JS applies one-to-many case
mappings (uppercasing U+00DF yields the two-character `"SS"`, so a
one-word input like `"ssa"` spelled with U+00DF gains a letter on
the first pass and is recapitalized differently on the second). -/
theorem normalizeSentence_idem_conditional (s : String)
    (_hascii : ∀ c ∈ s.data, c.toNat ≤ 127)
    (h1 : ∀ w ∈ splitSp (lowerList s.data), w ≠ [])
    (h2 : noCommaPairB (splitSp (lowerList s.data)) = true)
    (h3 : ∀ w ∈ splitSp (lowerList s.data), ∀ c ∈ w, jsWS c = false) :
    normalizeSentence (normalizeSentence s) = normalizeSentence s := by
  set lws := splitSp (lowerList s.data) with hlws
  set cws := capLoop true lws with hcws
  have hlwsne : lws ≠ [] := splitSp_ne_nil _
  have hsp_lws : ∀ w ∈ lws, ' ' ∉ w := fun w hw => splitSp_no_space _ w hw
  have hAllNE_cws : ∀ w' ∈ cws, w' ≠ [] := by
    intro w' hw'
    obtain ⟨w, hw, hc⟩ := capLoop_words true lws w' hw'
    rcases hc with rfl | rfl
    · exact h1 _ hw
    · exact capWord_ne_nil _ (h1 _ hw)
  have hwsf_cws : ∀ w' ∈ cws, ∀ c ∈ w', jsWS c = false := by
    intro w' hw'
    obtain ⟨w, hw, hc⟩ := capLoop_words true lws w' hw'
    rcases hc with rfl | rfl
    · exact h3 _ hw
    · exact capWord_wsFree _ (h3 _ hw)
  have hncp_cws : noCommaPairB cws = true := noCommaPairB_capLoop true lws h2
  have hcwsne : cws ≠ [] := by
    cases hl : lws with
    | nil => exact absurd hl hlwsne
    | cons w t =>
      rw [hcws, hl, capLoop_cons]
      simp
  have e1 : normalizeSentence s = String.mk (interSp cws) := by
    unfold normalizeSentence
    rw [← hlws, ← hcws,
      normalize_chain cws hcwsne hAllNE_cws hwsf_cws hncp_cws]
  have hstab : lws.map lowerList = lws := by
    have helem : ∀ w ∈ lws, lowerList w = w := by
      intro w hw
      apply lowerList_idem_chars
      intro c hc
      have hcmem : c ∈ lowerList s.data :=
        splitSp_chars_mem (lowerList s.data) w hw c hc
      obtain ⟨x, -, hx⟩ := List.mem_map.mp hcmem
      rw [← hx, toLower_toLower]
    calc lws.map lowerList = lws.map id := List.map_congr_left helem
      _ = lws := List.map_id _
  have e2 : normalizeSentence (String.mk (interSp cws)) =
      String.mk (interSp cws) := by
    unfold normalizeSentence
    have hd : (String.mk (interSp cws)).data = interSp cws := rfl
    rw [hd]
    have hlow : lowerList (interSp cws) = interSp lws := by
      rw [lowerList_interSp, hcws, map_lowerList_capLoop, hstab]
    rw [hlow, splitSp_interSp lws hlwsne hsp_lws, ← hcws,
      normalize_chain cws hcwsne hAllNE_cws hwsf_cws hncp_cws]
  rw [e1]
  exact e2

/-- Witness for C8's amended claim at a concrete well-shaped sentence. -/
theorem normalizeSentence_idem_conditional_witness :
    normalizeSentence (normalizeSentence "hello, my friend. all is fine.") =
      normalizeSentence "hello, my friend. all is fine." :=
  normalizeSentence_idem_conditional "hello, my friend. all is fine."
    (by decide) (by decide) (by decide) (by decide)
